import Mathlib

/-!
# oas3-agg: the fragment merge and the extraction of `cmd/generate.go`

A shallow embedding of `mergeMaps`, of the fold in `generateCmd.Run` and of
the extraction loop of `extractSpecs` (`src/cmd/generate.go`), with their
properties proved about it.

## Modelling decisions

* `interface{}` values produced by `yaml.v2` are embedded as `Value`: a scalar
  (string, integer, boolean or null), a `[]interface{}` (`Value.seq`) or a
  `map[interface{}]interface{}` (`Value.map`).  Floating point scalars are left
  out of `Scalar`.
* A Go map is embedded as an association list (`Mapping`).  The order of the
  list is the order in which `for k := range m1` visits the keys in one run:
  Go leaves that order unspecified, so every theorem quantifies over all
  lists.  A Go map holds each key once; theorems that depend on this carry
  the hypothesis `Mapping.NodupKeys`.
* `m2[k] = v` is `Mapping.assign`: it replaces the value of an existing key in
  place and puts a new key at the end of the list.
* The body of `mergeMaps` is embedded as three mutually recursive functions,
  so that the recursion is structural on `m1`: `mergeMaps` is the loop,
  `mergeEntry` the loop body for one key, `mergeValue` the type dispatch for
  a key that both maps hold.
* `mergeMaps` mutates `m2` and returns it; the embedding threads the mutated
  map through the loop and returns it.  On an error Go returns `nil` and the
  partly mutated `m2` is dropped; the embedding returns `Except.error` with
  the message of `errors.New`.
* `Mapping` is a non-nil map, and `mergeMaps` is the function on a non-nil
  destination.  A map that may be nil is a `GoMap` (`none` is the nil map),
  and `mergeMapsGo` is the call on such maps: ranging over a nil map visits
  nothing, reading a nil map finds no key, and the assignment of line 160
  into a nil map is a runtime panic (`Outcome.panic`).  `yaml.Unmarshal`
  turns the map of line 130 into a nil map for a document that is a bare
  null, so the fragments of the fold may be nil (`generateRunGo`).  Maps
  nested in values are never nil: a nested null is decoded as the null
  scalar.
-/

namespace Oas3Agg

/-- Scalars of a decoded YAML document, also used as mapping keys. -/
inductive Scalar
  | str (s : String)
  | int (i : Int)
  | bool (b : Bool)
  | null
  deriving DecidableEq, Repr

/-- The dynamic values held in a `map[interface{}]interface{}`. -/
inductive Value
  | scalar (s : Scalar)
  | seq (xs : List Value)
  | map (kvs : List (Scalar × Value))
  deriving Repr

/-- A Go map from scalar keys to values, as an association list. -/
abbrev Mapping := List (Scalar × Value)

/-- The keys of a mapping, in list order. -/
def Mapping.keys (m : Mapping) : List Scalar := m.map Prod.fst

/-- Each key occurs once, as in every Go map. -/
def Mapping.NodupKeys (m : Mapping) : Prop := (Mapping.keys m).Nodup

instance (m : Mapping) : Decidable (Mapping.NodupKeys m) :=
  inferInstanceAs (Decidable (List.Nodup (Mapping.keys m)))

/-- The Go expression `v, ok := m[k]`: `none` when `ok` is false. -/
def Mapping.lookup : Mapping → Scalar → Option Value
  | [], _ => none
  | (k', v) :: rest, k => if k' = k then some v else Mapping.lookup rest k

/-- The Go statement `m[k] = v` on a non-nil map `m` (on a nil map the
statement panics: see `mergeMapsGo`). -/
def Mapping.assign : Mapping → Scalar → Value → Mapping
  | [], k, v => [(k, v)]
  | (k', v') :: rest, k, v =>
    if k' = k then (k', v) :: rest else (k', v') :: Mapping.assign rest k v

/-- The three dynamic types `mergeMaps` tells apart with its type assertions:
`[]interface{}`, `map[interface{}]interface{}`, anything else. -/
inductive Kind
  | scalar
  | sequence
  | mapping
  deriving DecidableEq, Repr

/-- The dynamic type of a value. -/
def Value.kind : Value → Kind
  | .scalar _ => .scalar
  | .seq _ => .sequence
  | .map _ => .mapping

/-- The verb `%s` of `fmt.Sprintf` applied to a key: a string is printed as it
is, any other dynamic type in the bad-verb form of package `fmt`.  An integer
key is an `int`, or a `uint64` when it is above the largest `int64` (this is
how `yaml.v2` decodes it on a 64-bit platform; integers beyond `uint64` are
decoded as floating point and are outside `Scalar`). -/
def fmtS : Scalar → String
  | .str s => s
  | .int i =>
    if (9223372036854775807 : Int) < i then "%!s(uint64=" ++ toString i ++ ")"
    else "%!s(int=" ++ toString i ++ ")"
  | .bool b => "%!s(bool=" ++ toString b ++ ")"
  | .null => "%!s(<nil>)"

/-- The message of line 167. -/
def errLists (k : Scalar) : String :=
  "Merging failed, expected both entries for \"" ++ fmtS k ++ "\" to be lists."

/-- The message of line 177. -/
def errObjects (k : Scalar) : String :=
  "Merging failed, expected both entries for \"" ++ fmtS k ++ "\" to be objects."

/-- The message of line 188. -/
def errDuplicate (k : Scalar) : String :=
  "Specification invalid, duplicate entry for \"" ++ fmtS k ++ "\" encountered."

mutual
/-- The function `mergeMaps(m1, m2)` of `generate.go`, lines 155-192: the
entries of `m1` are visited in list order (line 157), the loop body
`mergeEntry` is run on each with the current `m2`, the first error is returned
at once, and after the last entry `m2` is returned (line 191). -/
def mergeMaps : List (Scalar × Value) → Mapping → Except String Mapping
  | [], m2 => .ok m2
  | entry :: rest, m2 =>
    match mergeEntry entry m2 with
    | .error err => .error err
    | .ok m2' => mergeMaps rest m2'
termination_by structural m1 => m1
/-- The loop body of `mergeMaps`, lines 158-188, for the entry `(k, m1[k])`: a
key that `m2` lacks is assigned directly (lines 159-162); otherwise `m2[k]` is
assigned what `mergeValue` gives (lines 169 and 183). -/
def mergeEntry : Scalar × Value → Mapping → Except String Mapping
  | (k, v1), m2 =>
    match Mapping.lookup m2 k with
    | none => .ok (Mapping.assign m2 k v1)
    | some v2 =>
      match mergeValue v1 k v2 with
      | .error err => .error err
      | .ok v => .ok (Mapping.assign m2 k v)
termination_by structural entry => entry
/-- Lines 163-188 for a key held by both maps, `v1` being `m1[k]` and `v2`
being `m2[k]`: the type switch on `m1[k]`, then the type assertion on `m2[k]`;
the result is the value to store under `k`. -/
def mergeValue : Value → Scalar → Value → Except String Value
  | .seq sliceM1, k, v2 =>
    match v2 with
    | .seq sliceM2 => .ok (.seq (sliceM2 ++ sliceM1))
    | _ => .error (errLists k)
  | .map mapM1, k, v2 =>
    match v2 with
    | .map mapM2 =>
      match mergeMaps mapM1 mapM2 with
      | .error err => .error err
      | .ok m1m2 => .ok (.map m1m2)
    | _ => .error (errObjects k)
  | .scalar _, k, _ => .error (errDuplicate k)
termination_by structural v1 => v1
end

/-- The loop of `generateCmd.Run`, lines 66-72, from a given accumulator:
`globalSpec, err = mergeMaps(globalSpec, spec)` for each `spec` in turn, the
run ending (`os.Exit(1)`) at the first error. -/
def foldSpecs (globalSpec : Mapping) : List Mapping → Except String Mapping
  | [] => .ok globalSpec
  | spec :: rest =>
    match mergeMaps globalSpec spec with
    | .error err => .error err
    | .ok merged => foldSpecs merged rest

/-- Lines 65-72 of `generateCmd.Run`: the fold from
`globalSpec := make(map[interface{}]interface{})`. -/
def generateRun (specs : List Mapping) : Except String Mapping :=
  foldSpecs [] specs

/-- A Go map that may be nil: `none` is the nil map, `some m` a map made by
`make` or by a map literal. -/
abbrev GoMap := Option Mapping

/-- The entries a `range` over a Go map visits: none for the nil map. -/
def GoMap.entries : GoMap → Mapping
  | none => []
  | some m => m

/-- How a call ends: it returns a value, it returns an error, or the Go
runtime panics. -/
inductive Outcome (α : Type) where
  | ok (r : α)
  | error (err : String)
  | panic
  deriving Repr

/-- The call `mergeMaps(m1, m2)` of `generate.go`, lines 155-192, on maps that
may be nil.  On a non-nil `m2` it is `mergeMaps` over the entries of `m1`.
On a nil `m2`: when `m1` has no entry the loop of line 157 does not run and
line 191 returns `m2`; when `m1` has an entry, the first pass finds its key
absent from `m2` (line 159, reading a nil map) and the assignment
`m2[k] = m1[k]` of line 160 panics (assignment to entry in nil map). -/
def mergeMapsGo (m1 m2 : GoMap) : Outcome GoMap :=
  match m2 with
  | some dst =>
    match mergeMaps (GoMap.entries m1) dst with
    | .error err => .error err
    | .ok merged => .ok (some merged)
  | none =>
    match GoMap.entries m1 with
    | [] => .ok none
    | _ :: _ => .panic

/-- The loop of `generateCmd.Run`, lines 66-72, over fragments that may be
nil; a panic ends the run as the error does. -/
def foldSpecsGo (globalSpec : GoMap) : List GoMap → Outcome GoMap
  | [] => .ok globalSpec
  | spec :: rest =>
    match mergeMapsGo globalSpec spec with
    | .panic => .panic
    | .error err => .error err
    | .ok merged => foldSpecsGo merged rest

/-- Lines 65-72 of `generateCmd.Run` over fragments that may be nil, from
`globalSpec := make(map[interface{}]interface{})`. -/
def generateRunGo (specs : List GoMap) : Outcome GoMap :=
  foldSpecsGo (some []) specs

/-- The expression `mergeMaps(mergeMaps(a, b), c)` on maps that may be nil, an
error or a panic of the inner call ending the evaluation. -/
def mergeLeftGo (a b c : GoMap) : Outcome GoMap :=
  match mergeMapsGo a b with
  | .panic => .panic
  | .error err => .error err
  | .ok ab => mergeMapsGo ab c

/-- The expression `mergeMaps(a, mergeMaps(b, c))` on maps that may be nil, an
error or a panic of the inner call ending the evaluation. -/
def mergeRightGo (a b c : GoMap) : Outcome GoMap :=
  match mergeMapsGo b c with
  | .panic => .panic
  | .error err => .error err
  | .ok bc => mergeMapsGo a bc

/-- Unique keys at every depth that `mergeMaps` can reach: in the mapping and
in every mapping nested in it through mappings. -/
inductive Mapping.Deep : Mapping → Prop
  | intro (m : Mapping) :
      Mapping.NodupKeys m →
      (∀ k a, Mapping.lookup m k = some (.map a) → Mapping.Deep a) →
      Mapping.Deep m

/-- A conflict between a source `m1` and a destination `m2` at some depth: a
key held by both whose values are not both sequences and not both mappings,
or a key held by both as mappings that conflict in turn. -/
inductive Conflict : Mapping → Mapping → Prop
  | here {m1 m2 : Mapping} (k : Scalar) (v1 v2 : Value) :
      Mapping.lookup m1 k = some v1 → Mapping.lookup m2 k = some v2 →
      (Value.kind v1 ≠ Value.kind v2 ∨ Value.kind v1 = .scalar) →
      Conflict m1 m2
  | nested {m1 m2 : Mapping} (k : Scalar) (a b : Mapping) :
      Mapping.lookup m1 k = some (.map a) → Mapping.lookup m2 k = some (.map b) →
      Conflict a b →
      Conflict m1 m2

/-- Structural equality of values: maps are compared as maps, whatever the
order of their entries, sequences element by element. -/
inductive Value.Equiv : Value → Value → Prop
  | refl (v : Value) : Value.Equiv v v
  | seqCons (x y : Value) (xs ys : List Value) :
      Value.Equiv x y → Value.Equiv (.seq xs) (.seq ys) →
      Value.Equiv (.seq (x :: xs)) (.seq (y :: ys))
  | map (m m' : Mapping) :
      (∀ k, Mapping.lookup m k = none ↔ Mapping.lookup m' k = none) →
      (∀ k v v', Mapping.lookup m k = some v → Mapping.lookup m' k = some v' →
        Value.Equiv v v') →
      Value.Equiv (.map m) (.map m')

/-- Structural equality of two mappings. -/
def Mapping.Equiv (m m' : Mapping) : Prop := Value.Equiv (.map m) (.map m')

/-- What one key holds after `mergeMaps m1 m2`, from what it holds in `m1`
(first argument) and in `m2` (second argument): lines 159-188 read key by
key. -/
def combine (k : Scalar) : Option Value → Option Value → Except String (Option Value)
  | none, o2 => .ok o2
  | some v1, none => .ok (some v1)
  | some v1, some v2 =>
    match mergeValue v1 k v2 with
    | .error err => .error err
    | .ok v => .ok (some v)

/-! ### The extraction of `extractSpecs`

The text of a file is embedded as the list of its characters (the file is
taken to be valid UTF-8; the two marker literals are ASCII, so splitting and
searching by character and by byte agree).  `strings.Index`, `strings.Split`
and `strings.TrimSpace` are embedded after their documentation in package
`strings`; `yaml.Unmarshal` is a parameter. -/

/-- The predicate `unicode.IsSpace`. -/
def isSpace (c : Char) : Bool :=
  c.toNat = 0x09 || c.toNat = 0x0A || c.toNat = 0x0B || c.toNat = 0x0C || c.toNat = 0x0D ||
  c.toNat = 0x20 || c.toNat = 0x85 || c.toNat = 0xA0 || c.toNat = 0x1680 ||
  (0x2000 ≤ c.toNat && c.toNat ≤ 0x200A) || c.toNat = 0x2028 || c.toNat = 0x2029 ||
  c.toNat = 0x202F || c.toNat = 0x205F || c.toNat = 0x3000

/-- The function `strings.TrimSpace`. -/
def trimSpace (s : List Char) : List Char :=
  ((s.dropWhile isSpace).reverse.dropWhile isSpace).reverse

/-- The function `strings.Index`: the position of the first occurrence of
`substr` in `s`, `none` for Go's `-1`. -/
def index : List Char → List Char → Option Nat
  | [], substr => if substr.isPrefixOf [] then some 0 else none
  | c :: t, substr =>
    if substr.isPrefixOf (c :: t) then some 0 else (index t substr).map (· + 1)

/-- The loop of `strings.Split` for a non-empty separator, run at most `fuel`
times: cut at the first occurrence of `sep`, go on after it. -/
def splitFuel : Nat → List Char → List Char → List (List Char)
  | 0, s, _ => [s]
  | fuel + 1, s, sep =>
    match index s sep with
    | none => [s]
    | some m => s.take m :: splitFuel fuel (s.drop (m + sep.length)) sep

/-- The function `strings.Split` for a non-empty separator (each pass of the
loop removes at least one character, so `s.length` passes are enough; see
`split_eq`). -/
def split (s sep : List Char) : List (List Char) := splitFuel s.length s sep

/-- The literal of line 122. -/
def openingMarker : List Char := "/*** OAS3-Specification".toList

/-- The literal of line 125. -/
def closingMarker : List Char := "\n***/".toList

/-- The state of the extraction of one file when its loop ends: the slice
`finalSpecs`, the error returned by the callback (`none` for `nil`), and, as
a ghost field, the payloads that were handed to `yaml.Unmarshal`, in order. -/
structure Extraction (ε : Type) where
  finalSpecs : List Mapping
  parsed : List (List Char)
  err : Option ε

/-- The loop of lines 124-140 over the candidates, `unmarshal` standing for
`yaml.Unmarshal` into a fresh map. -/
def extractLoop {ε : Type} (unmarshal : List Char → Except ε Mapping) :
    List (List Char) → List Mapping → List (List Char) → Extraction ε
  | [], finalSpecs, parsed => ⟨finalSpecs, parsed, none⟩
  | candidate :: rest, finalSpecs, parsed =>
    match index candidate closingMarker with
    | none => extractLoop unmarshal rest finalSpecs parsed
    | some trimIdx =>
      let yamlSpec := trimSpace (candidate.take trimIdx)
      match unmarshal yamlSpec with
      | .error err => ⟨finalSpecs, parsed ++ [yamlSpec], some err⟩
      | .ok specMap =>
        extractLoop unmarshal rest (finalSpecs ++ [specMap]) (parsed ++ [yamlSpec])

/-- Lines 121-140 of `extractSpecs` for the text `content` of one file,
`finalSpecs` holding the fragments of the files walked before. -/
def extractFile {ε : Type} (unmarshal : List Char → Except ε Mapping)
    (content : List Char) (finalSpecs : List Mapping) : Extraction ε :=
  extractLoop unmarshal (split content openingMarker) finalSpecs []

/-- The payload of a candidate that line 127 accepts: the text before its
first closing literal, trimmed (line 128); `none` for a candidate without
closing literal. -/
def payloadOf (candidate : List Char) : Option (List Char) :=
  match index candidate closingMarker with
  | none => none
  | some trimIdx => some (trimSpace (candidate.take trimIdx))

/-- The payloads of the accepted candidates of a text, in order. -/
def payloads (content : List Char) : List (List Char) :=
  (split content openingMarker).filterMap payloadOf

/-- The loop of lines 124-140 read over the payloads of the accepted
candidates only. -/
def runPayloads {ε : Type} (unmarshal : List Char → Except ε Mapping) :
    List (List Char) → List Mapping → List (List Char) → Extraction ε
  | [], finalSpecs, parsed => ⟨finalSpecs, parsed, none⟩
  | yamlSpec :: rest, finalSpecs, parsed =>
    match unmarshal yamlSpec with
    | .error err => ⟨finalSpecs, parsed ++ [yamlSpec], some err⟩
    | .ok specMap =>
      runPayloads unmarshal rest (finalSpecs ++ [specMap]) (parsed ++ [yamlSpec])

mutual
/-- A check of `Mapping.Deep` below the top level: every mapping nested in the
entries has unique keys, at every depth. -/
def deepCheck : List (Scalar × Value) → Bool
  | [] => true
  | entry :: rest => deepCheckEntry entry && deepCheck rest
termination_by structural m => m
/-- The check of `deepCheck` for one entry. -/
def deepCheckEntry : Scalar × Value → Bool
  | (_, v) => deepCheckValue v
termination_by structural entry => entry
/-- The check of `deepCheck` for one value. -/
def deepCheckValue : Value → Bool
  | .map m => decide (Mapping.NodupKeys m) && deepCheck m
  | _ => true
termination_by structural v => v
end

/-- Structural equality of what one key holds in two mappings: absent in
both, or present in both with structurally equal values. -/
def OptEquiv : Option Value → Option Value → Prop
  | none, none => True
  | some v, some v' => Value.Equiv v v'
  | _, _ => False

/-- Two outcomes agree up to the identity of the error: both are errors, or
both are results related by `R`. -/
def SameOutcome {α : Type} (R : α → α → Prop) (x y : Except String α) : Prop :=
  ((∃ err, x = .error err) ↔ (∃ err, y = .error err)) ∧
    ∀ r r', x = .ok r → y = .ok r' → R r r'

/-- The expression `mergeMaps(mergeMaps(a, b), c)`, an error of the inner
call ending the evaluation. -/
def mergeLeft (a b c : Mapping) : Except String Mapping :=
  match mergeMaps a b with
  | .error err => .error err
  | .ok ab => mergeMaps ab c

/-- The expression `mergeMaps(a, mergeMaps(b, c))`, an error of the inner
call ending the evaluation. -/
def mergeRight (a b c : Mapping) : Except String Mapping :=
  match mergeMaps b c with
  | .error err => .error err
  | .ok bc => mergeMaps a bc

/-- The part of `mergeLeft` that concerns one key. -/
def combineLeft (k : Scalar) (oa ob oc : Option Value) : Except String (Option Value) :=
  match combine k oa ob with
  | .error err => .error err
  | .ok oab => combine k oab oc

/-- The part of `mergeRight` that concerns one key. -/
def combineRight (k : Scalar) (oa ob oc : Option Value) : Except String (Option Value) :=
  match combine k ob oc with
  | .error err => .error err
  | .ok obc => combine k oa obc

/-- A mapping outcome as a value outcome (line 183 stores the merged mapping
under the key). -/
def liftMap (x : Except String Mapping) : Except String Value :=
  match x with
  | .error err => .error err
  | .ok r => .ok (.map r)

/-- A value outcome as the outcome for a key. -/
def liftSome (x : Except String Value) : Except String (Option Value) :=
  match x with
  | .error err => .error err
  | .ok v => .ok (some v)

/-- The part of `mergeLeft` that concerns one key held by all three
mappings. -/
def valueLeft (k : Scalar) (va vb vc : Value) : Except String Value :=
  match mergeValue va k vb with
  | .error err => .error err
  | .ok vab => mergeValue vab k vc

/-- The part of `mergeRight` that concerns one key held by all three
mappings. -/
def valueRight (k : Scalar) (va vb vc : Value) : Except String Value :=
  match mergeValue vb k vc with
  | .error err => .error err
  | .ok vbc => mergeValue va k vbc

/-! ## Lookups and assignments -/

@[simp] theorem Mapping.keys_nil : Mapping.keys [] = [] := rfl

@[simp] theorem Mapping.keys_cons (k : Scalar) (v : Value) (m : Mapping) :
    Mapping.keys ((k, v) :: m) = k :: Mapping.keys m := rfl

theorem Mapping.keys_append (m m' : Mapping) :
    Mapping.keys (m ++ m') = Mapping.keys m ++ Mapping.keys m' := by
  simp [Mapping.keys]

theorem Mapping.lookup_eq_none_iff (m : Mapping) (k : Scalar) :
    Mapping.lookup m k = none ↔ k ∉ Mapping.keys m := by
  induction m with
  | nil => simp [Mapping.lookup]
  | cons e rest ih =>
    obtain ⟨k', v⟩ := e
    by_cases h : k' = k
    · simp [Mapping.lookup, h]
    · have h' : ¬ k = k' := fun x => h x.symm
      simp [Mapping.lookup, h, h', ih]

theorem Mapping.lookup_isSome_iff (m : Mapping) (k : Scalar) :
    (∃ v, Mapping.lookup m k = some v) ↔ k ∈ Mapping.keys m := by
  rw [← not_iff_not, ← Mapping.lookup_eq_none_iff]
  cases Mapping.lookup m k <;> simp

theorem Mapping.lookup_assign_self (m : Mapping) (k : Scalar) (v : Value) :
    Mapping.lookup (Mapping.assign m k v) k = some v := by
  induction m with
  | nil => simp [Mapping.assign, Mapping.lookup]
  | cons e rest ih =>
    obtain ⟨k', v'⟩ := e
    by_cases h : k' = k
    · simp [Mapping.assign, Mapping.lookup, h]
    · simp [Mapping.assign, Mapping.lookup, h, ih]

theorem Mapping.lookup_assign_of_ne (m : Mapping) (k j : Scalar) (v : Value)
    (hne : k ≠ j) :
    Mapping.lookup (Mapping.assign m k v) j = Mapping.lookup m j := by
  induction m with
  | nil => simp [Mapping.assign, Mapping.lookup, hne]
  | cons e rest ih =>
    obtain ⟨k', v'⟩ := e
    by_cases h : k' = k
    · subst h
      simp [Mapping.assign, Mapping.lookup, hne]
    · by_cases hj : k' = j
      · subst hj
        simp [Mapping.assign, Mapping.lookup, h]
      · simp [Mapping.assign, Mapping.lookup, h, hj, ih]

theorem Mapping.assign_of_lookup_none (m : Mapping) (k : Scalar) (v : Value)
    (h : Mapping.lookup m k = none) :
    Mapping.assign m k v = m ++ [(k, v)] := by
  induction m with
  | nil => rfl
  | cons e rest ih =>
    obtain ⟨k', v'⟩ := e
    by_cases hk : k' = k
    · simp [Mapping.lookup, hk] at h
    · simp only [Mapping.lookup, hk, if_false] at h
      simp [Mapping.assign, hk, ih h]

theorem Mapping.keys_assign_of_mem (m : Mapping) (k : Scalar) (v : Value)
    (h : k ∈ Mapping.keys m) :
    Mapping.keys (Mapping.assign m k v) = Mapping.keys m := by
  induction m with
  | nil => simp at h
  | cons e rest ih =>
    obtain ⟨k', v'⟩ := e
    by_cases hk : k' = k
    · simp [Mapping.assign, hk]
    · have hk' : ¬ k = k' := fun x => hk x.symm
      simp only [Mapping.keys_cons, List.mem_cons, hk', false_or] at h
      simp [Mapping.assign, hk, ih h]

theorem Mapping.keys_assign_of_not_mem (m : Mapping) (k : Scalar) (v : Value)
    (h : k ∉ Mapping.keys m) :
    Mapping.keys (Mapping.assign m k v) = Mapping.keys m ++ [k] := by
  rw [Mapping.assign_of_lookup_none m k v ((Mapping.lookup_eq_none_iff m k).2 h),
    Mapping.keys_append]
  rfl

theorem Mapping.mem_keys_assign (m : Mapping) (k j : Scalar) (v : Value) :
    j ∈ Mapping.keys (Mapping.assign m k v) ↔ j = k ∨ j ∈ Mapping.keys m := by
  by_cases h : k ∈ Mapping.keys m
  · rw [Mapping.keys_assign_of_mem m k v h]
    constructor
    · exact Or.inr
    · rintro (rfl | hj)
      · exact h
      · exact hj
  · rw [Mapping.keys_assign_of_not_mem m k v h]
    simp [or_comm]

theorem Mapping.nodupKeys_assign (m : Mapping) (k : Scalar) (v : Value)
    (h : Mapping.NodupKeys m) : Mapping.NodupKeys (Mapping.assign m k v) := by
  unfold Mapping.NodupKeys at *
  by_cases hk : k ∈ Mapping.keys m
  · rw [Mapping.keys_assign_of_mem m k v hk]
    exact h
  · rw [Mapping.keys_assign_of_not_mem m k v hk]
    exact List.Nodup.append h (List.nodup_singleton k) (by simpa using hk)

/-! ## The loop of `mergeMaps`, entry by entry -/

theorem mergeMaps_nil (m2 : Mapping) : mergeMaps [] m2 = .ok m2 := by
  rw [mergeMaps]

theorem mergeMaps_cons (entry : Scalar × Value) (rest m2 : Mapping) :
    mergeMaps (entry :: rest) m2 =
      match mergeEntry entry m2 with
      | .error err => .error err
      | .ok m2' => mergeMaps rest m2' := by
  rw [mergeMaps]

theorem mergeEntry_of_lookup_none (k : Scalar) (v1 : Value) (m2 : Mapping)
    (h : Mapping.lookup m2 k = none) :
    mergeEntry (k, v1) m2 = .ok (Mapping.assign m2 k v1) := by
  rw [mergeEntry, h]

theorem mergeEntry_of_lookup_some (k : Scalar) (v1 v2 : Value) (m2 : Mapping)
    (h : Mapping.lookup m2 k = some v2) :
    mergeEntry (k, v1) m2 =
      match mergeValue v1 k v2 with
      | .error err => .error err
      | .ok v => .ok (Mapping.assign m2 k v) := by
  rw [mergeEntry, h]

theorem mergeEntry_eq_ok (k : Scalar) (v1 : Value) (m2 r : Mapping)
    (h : mergeEntry (k, v1) m2 = .ok r) :
    ∃ v, r = Mapping.assign m2 k v ∧
      ((Mapping.lookup m2 k = none ∧ v = v1) ∨
        ∃ v2, Mapping.lookup m2 k = some v2 ∧ mergeValue v1 k v2 = .ok v) := by
  cases hl : Mapping.lookup m2 k with
  | none =>
    rw [mergeEntry_of_lookup_none k v1 m2 hl] at h
    injection h with h
    exact ⟨v1, h.symm, Or.inl ⟨rfl, rfl⟩⟩
  | some v2 =>
    rw [mergeEntry_of_lookup_some k v1 v2 m2 hl] at h
    cases hv : mergeValue v1 k v2 with
    | error err => rw [hv] at h; cases h
    | ok v =>
      rw [hv] at h
      injection h with h
      exact ⟨v, h.symm, Or.inr ⟨v2, rfl, hv⟩⟩

theorem mergeEntry_lookup_of_ne (k j : Scalar) (v1 : Value) (m2 r : Mapping)
    (h : mergeEntry (k, v1) m2 = .ok r) (hne : k ≠ j) :
    Mapping.lookup r j = Mapping.lookup m2 j := by
  obtain ⟨v, rfl, _⟩ := mergeEntry_eq_ok k v1 m2 r h
  exact Mapping.lookup_assign_of_ne m2 k j v hne

theorem mergeEntry_mem_keys (k j : Scalar) (v1 : Value) (m2 r : Mapping)
    (h : mergeEntry (k, v1) m2 = .ok r) :
    j ∈ Mapping.keys r ↔ j = k ∨ j ∈ Mapping.keys m2 := by
  obtain ⟨v, rfl, _⟩ := mergeEntry_eq_ok k v1 m2 r h
  exact Mapping.mem_keys_assign m2 k j v

theorem mergeEntry_nodupKeys (k : Scalar) (v1 : Value) (m2 r : Mapping)
    (h : mergeEntry (k, v1) m2 = .ok r) (hn : Mapping.NodupKeys m2) :
    Mapping.NodupKeys r := by
  obtain ⟨v, rfl, _⟩ := mergeEntry_eq_ok k v1 m2 r h
  exact Mapping.nodupKeys_assign m2 k v hn

/-- What a successful `mergeMaps` leaves in the first step. -/
theorem mergeMaps_cons_eq_ok (entry : Scalar × Value) (rest m2 r : Mapping)
    (h : mergeMaps (entry :: rest) m2 = .ok r) :
    ∃ m2', mergeEntry entry m2 = .ok m2' ∧ mergeMaps rest m2' = .ok r := by
  rw [mergeMaps_cons] at h
  cases he : mergeEntry entry m2 with
  | error err => rw [he] at h; cases h
  | ok m2' => rw [he] at h; exact ⟨m2', rfl, h⟩

/-- Frame: a key that `m1` lacks keeps the value it has in `m2`. -/
theorem mergeMaps_lookup_of_not_mem (m1 : Mapping) :
    ∀ (m2 r : Mapping) (j : Scalar), mergeMaps m1 m2 = .ok r →
      j ∉ Mapping.keys m1 → Mapping.lookup r j = Mapping.lookup m2 j := by
  induction m1 with
  | nil =>
    intro m2 r j h _
    rw [mergeMaps_nil] at h
    injection h with h
    rw [h]
  | cons entry rest ih =>
    intro m2 r j h hj
    obtain ⟨k, v1⟩ := entry
    obtain ⟨m2', he, hr⟩ := mergeMaps_cons_eq_ok (k, v1) rest m2 r h
    simp only [Mapping.keys_cons, List.mem_cons, not_or] at hj
    rw [ih m2' r j hr hj.2]
    exact mergeEntry_lookup_of_ne k j v1 m2 m2' he (fun x => hj.1 x.symm)

theorem mergeMaps_mem_keys (m1 : Mapping) :
    ∀ (m2 r : Mapping) (j : Scalar), mergeMaps m1 m2 = .ok r →
      (j ∈ Mapping.keys r ↔ j ∈ Mapping.keys m1 ∨ j ∈ Mapping.keys m2) := by
  induction m1 with
  | nil =>
    intro m2 r j h
    rw [mergeMaps_nil] at h
    injection h with h
    simp [h]
  | cons entry rest ih =>
    intro m2 r j h
    obtain ⟨k, v1⟩ := entry
    obtain ⟨m2', he, hr⟩ := mergeMaps_cons_eq_ok (k, v1) rest m2 r h
    rw [ih m2' r j hr, mergeEntry_mem_keys k j v1 m2 m2' he]
    simp only [Mapping.keys_cons, List.mem_cons]
    tauto

theorem mergeMaps_nodupKeys (m1 : Mapping) :
    ∀ (m2 r : Mapping), mergeMaps m1 m2 = .ok r →
      Mapping.NodupKeys m2 → Mapping.NodupKeys r := by
  induction m1 with
  | nil =>
    intro m2 r h hn
    rw [mergeMaps_nil] at h
    injection h with h
    rw [← h]
    exact hn
  | cons entry rest ih =>
    intro m2 r h hn
    obtain ⟨k, v1⟩ := entry
    obtain ⟨m2', he, hr⟩ := mergeMaps_cons_eq_ok (k, v1) rest m2 r h
    exact ih m2' r hr (mergeEntry_nodupKeys k v1 m2 m2' he hn)

/-- The value a successful merge leaves under a key of `m1`. -/
theorem mergeMaps_lookup_of_mem (m1 : Mapping) :
    ∀ (m2 r : Mapping) (k : Scalar) (v1 : Value), Mapping.NodupKeys m1 →
      mergeMaps m1 m2 = .ok r → Mapping.lookup m1 k = some v1 →
      ∃ v, Mapping.lookup r k = some v ∧
        ((Mapping.lookup m2 k = none ∧ v = v1) ∨
          ∃ v2, Mapping.lookup m2 k = some v2 ∧ mergeValue v1 k v2 = .ok v) := by
  induction m1 with
  | nil =>
    intro m2 r k v1 _ _ hl
    simp [Mapping.lookup] at hl
  | cons entry rest ih =>
    intro m2 r k v1 hn h hl
    obtain ⟨k0, v0⟩ := entry
    obtain ⟨m2', he, hr⟩ := mergeMaps_cons_eq_ok (k0, v0) rest m2 r h
    have hn' : k0 ∉ Mapping.keys rest ∧ Mapping.NodupKeys rest := by
      simpa [Mapping.NodupKeys] using hn
    by_cases hk : k0 = k
    · subst hk
      simp only [Mapping.lookup, if_true, Option.some.injEq] at hl
      subst hl
      obtain ⟨v, hm2', hv⟩ := mergeEntry_eq_ok k0 v0 m2 m2' he
      refine ⟨v, ?_, hv⟩
      rw [mergeMaps_lookup_of_not_mem rest m2' r k0 hr hn'.1, hm2']
      exact Mapping.lookup_assign_self m2 k0 v
    · simp only [Mapping.lookup, hk, if_false] at hl
      obtain ⟨v, hv, hcase⟩ := ih m2' r k v1 hn'.2 hr hl
      rw [mergeEntry_lookup_of_ne k0 k v0 m2 m2' he hk] at hcase
      exact ⟨v, hv, hcase⟩

theorem mergeValue_seq_seq (k : Scalar) (xs ys : List Value) :
    mergeValue (.seq xs) k (.seq ys) = .ok (.seq (ys ++ xs)) := by
  rw [mergeValue]

theorem mergeValue_map_map (k : Scalar) (a b : Mapping) :
    mergeValue (.map a) k (.map b) =
      match mergeMaps a b with
      | .error err => .error err
      | .ok m1m2 => .ok (.map m1m2) := by
  rw [mergeValue]

theorem mergeValue_scalar (k : Scalar) (s : Scalar) (v2 : Value) :
    mergeValue (.scalar s) k v2 = .error (errDuplicate k) := by
  rw [mergeValue]

theorem mergeValue_seq_of_not_seq (k : Scalar) (xs : List Value) (v2 : Value)
    (h : ¬ ∃ ys, v2 = .seq ys) :
    mergeValue (.seq xs) k v2 = .error (errLists k) := by
  cases v2 with
  | seq ys => exact absurd ⟨ys, rfl⟩ h
  | scalar s => rfl
  | map b => rfl

theorem mergeValue_map_of_not_map (k : Scalar) (a : Mapping) (v2 : Value)
    (h : ¬ ∃ b, v2 = .map b) :
    mergeValue (.map a) k v2 = .error (errObjects k) := by
  cases v2 with
  | map b => exact absurd ⟨b, rfl⟩ h
  | scalar s => rfl
  | seq ys => rfl

/-! ## The fold of `generateCmd.Run` -/

theorem foldSpecs_nil (acc : Mapping) : foldSpecs acc [] = .ok acc := rfl

theorem foldSpecs_cons (acc spec : Mapping) (rest : List Mapping) :
    foldSpecs acc (spec :: rest) =
      match mergeMaps acc spec with
      | .error err => .error err
      | .ok merged => foldSpecs merged rest := rfl

theorem foldSpecs_cons_eq_ok (acc spec r : Mapping) (rest : List Mapping)
    (h : foldSpecs acc (spec :: rest) = .ok r) :
    ∃ merged, mergeMaps acc spec = .ok merged ∧ foldSpecs merged rest = .ok r := by
  rw [foldSpecs_cons] at h
  cases hm : mergeMaps acc spec with
  | error err => rw [hm] at h; cases h
  | ok merged => rw [hm] at h; exact ⟨merged, rfl, h⟩

/-- The first pass of the fold returns the first fragment. -/
theorem generateRun_cons (spec : Mapping) (rest : List Mapping) :
    generateRun (spec :: rest) = foldSpecs spec rest := by
  rw [generateRun, foldSpecs_cons, mergeMaps_nil]

/-! ## Sequences under a shared key -/

/-- The sequence a successful merge leaves under a key that both maps hold as
sequences. -/
theorem mergeMaps_lookup_seq (m1 m2 r : Mapping) (k : Scalar) (xs ys : List Value)
    (hn : Mapping.NodupKeys m1)
    (h1 : Mapping.lookup m1 k = some (.seq xs))
    (h2 : Mapping.lookup m2 k = some (.seq ys))
    (h : mergeMaps m1 m2 = .ok r) :
    Mapping.lookup r k = some (.seq (ys ++ xs)) := by
  obtain ⟨v, hv, hcase⟩ := mergeMaps_lookup_of_mem m1 m2 r k (.seq xs) hn h h1
  rcases hcase with ⟨hnone, _⟩ | ⟨v2, hsome, hm⟩
  · rw [h2] at hnone
    cases hnone
  · rw [h2] at hsome
    injection hsome with hsome
    subst hsome
    rw [mergeValue_seq_seq] at hm
    injection hm with hm
    subst hm
    exact hv

/-- Claim C1.  When the source `m1` (keys unique, as in a Go map) and the
destination `m2` both hold a sequence under `k` and `mergeMaps m1 m2`
succeeds, the result holds under `k` the elements of `m2[k]` followed by
those of `m1[k]`, all of them, in order. -/
theorem mergeMaps_seq_concat (m1 m2 r : Mapping) (k : Scalar) (xs ys : List Value)
    (hn : Mapping.NodupKeys m1)
    (h1 : Mapping.lookup m1 k = some (.seq xs))
    (h2 : Mapping.lookup m2 k = some (.seq ys))
    (h : mergeMaps m1 m2 = .ok r) :
    ∃ zs, Mapping.lookup r k = some (.seq zs) ∧ zs = ys ++ xs ∧
      zs.length = ys.length + xs.length :=
  ⟨ys ++ xs, mergeMaps_lookup_seq m1 m2 r k xs ys hn h1 h2 h, rfl,
    List.length_append ys xs⟩

/-- Witness of C1: merging `a: [1, 2]` into `a: [3, 4]` gives
`a: [3, 4, 1, 2]`. -/
theorem mergeMaps_seq_concat_witness :
    ∃ zs, Mapping.lookup [(Scalar.str "a", Value.seq [.scalar (.int 3), .scalar (.int 4),
        .scalar (.int 1), .scalar (.int 2)])] (Scalar.str "a") = some (.seq zs) ∧
      zs = [Value.scalar (.int 3), .scalar (.int 4)] ++ [Value.scalar (.int 1), .scalar (.int 2)] ∧
      zs.length = 2 + 2 :=
  mergeMaps_seq_concat
    [(.str "a", .seq [.scalar (.int 1), .scalar (.int 2)])]
    [(.str "a", .seq [.scalar (.int 3), .scalar (.int 4)])]
    [(.str "a", .seq [.scalar (.int 3), .scalar (.int 4), .scalar (.int 1), .scalar (.int 2)])]
    (.str "a") [.scalar (.int 1), .scalar (.int 2)] [.scalar (.int 3), .scalar (.int 4)]
    (by decide) rfl rfl rfl

/-! ## When a merge fails -/

theorem except_error_or_ok {ε α : Type} (x : Except ε α) :
    (∃ err, x = .error err) ∨ (∃ r, x = .ok r) := by
  cases x with
  | error err => exact Or.inl ⟨err, rfl⟩
  | ok r => exact Or.inr ⟨r, rfl⟩

/-- The type dispatch fails exactly when the two values are neither both
sequences nor both mappings whose own merge succeeds. -/
theorem mergeValue_error_iff (k : Scalar) (v1 v2 : Value) :
    (∃ err, mergeValue v1 k v2 = .error err) ↔
      ¬ ((∃ xs ys, v1 = .seq xs ∧ v2 = .seq ys) ∨
        (∃ a b ab, v1 = .map a ∧ v2 = .map b ∧ mergeMaps a b = .ok ab)) := by
  cases v1 with
  | scalar s => simp [mergeValue_scalar]
  | seq xs =>
    cases v2 with
    | seq ys => simp [mergeValue_seq_seq]
    | scalar s => simp [mergeValue_seq_of_not_seq]
    | map b => simp [mergeValue_seq_of_not_seq]
  | map a =>
    cases v2 with
    | map b =>
      rw [mergeValue_map_map]
      rcases except_error_or_ok (mergeMaps a b) with ⟨err, hab⟩ | ⟨ab, hab⟩
      · simp [hab]
      · simp [hab]
    | scalar s => simp [mergeValue_map_of_not_map]
    | seq ys => simp [mergeValue_map_of_not_map]

theorem mergeValue_error_of_kind_ne (k : Scalar) (v1 v2 : Value)
    (h : Value.kind v1 ≠ Value.kind v2) :
    ∃ err, mergeValue v1 k v2 = .error err := by
  cases v1 with
  | scalar s => exact ⟨_, mergeValue_scalar k s v2⟩
  | seq xs =>
    cases v2 with
    | seq ys => exact absurd rfl h
    | scalar s => exact ⟨_, rfl⟩
    | map b => exact ⟨_, rfl⟩
  | map a =>
    cases v2 with
    | map b => exact absurd rfl h
    | scalar s => exact ⟨_, rfl⟩
    | seq ys => exact ⟨_, rfl⟩

/-- A key on which the type dispatch fails makes the whole merge fail (on
that key or on one visited before it). -/
theorem mergeMaps_error_of_conflict (m1 : Mapping) :
    ∀ (m2 : Mapping) (k : Scalar) (v1 v2 : Value),
      Mapping.lookup m1 k = some v1 → Mapping.lookup m2 k = some v2 →
      (∃ err, mergeValue v1 k v2 = .error err) →
      ∃ err, mergeMaps m1 m2 = .error err := by
  induction m1 with
  | nil =>
    intro m2 k v1 v2 h1
    simp [Mapping.lookup] at h1
  | cons entry rest ih =>
    intro m2 k v1 v2 h1 h2 hv
    obtain ⟨k0, v0⟩ := entry
    rw [mergeMaps_cons]
    cases he : mergeEntry (k0, v0) m2 with
    | error err => exact ⟨err, rfl⟩
    | ok m2' =>
      by_cases hk : k0 = k
      · subst hk
        simp only [Mapping.lookup, if_true, Option.some.injEq] at h1
        subst h1
        obtain ⟨err, herr⟩ := hv
        rw [mergeEntry_of_lookup_some k0 v0 v2 m2 h2, herr] at he
        cases he
      · simp only [Mapping.lookup, hk, if_false] at h1
        have h2' : Mapping.lookup m2' k = some v2 := by
          rw [mergeEntry_lookup_of_ne k0 k v0 m2 m2' he hk]
          exact h2
        exact ih m2' k v1 v2 h1 h2' hv

/-- A failing merge has a key, held by both maps, on which the type dispatch
fails. -/
theorem mergeMaps_conflict_of_error (m1 : Mapping) :
    ∀ (m2 : Mapping) (err : String), Mapping.NodupKeys m1 →
      mergeMaps m1 m2 = .error err →
      ∃ k v1 v2, Mapping.lookup m1 k = some v1 ∧ Mapping.lookup m2 k = some v2 ∧
        mergeValue v1 k v2 = .error err := by
  induction m1 with
  | nil =>
    intro m2 err _ h
    rw [mergeMaps_nil] at h
    cases h
  | cons entry rest ih =>
    intro m2 err hn h
    obtain ⟨k0, v0⟩ := entry
    have hn' : k0 ∉ Mapping.keys rest ∧ Mapping.NodupKeys rest := by
      simpa [Mapping.NodupKeys] using hn
    rw [mergeMaps_cons] at h
    cases he : mergeEntry (k0, v0) m2 with
    | error err0 =>
      rw [he] at h
      injection h with h
      subst h
      cases hl : Mapping.lookup m2 k0 with
      | none =>
        rw [mergeEntry_of_lookup_none k0 v0 m2 hl] at he
        cases he
      | some v2 =>
        rw [mergeEntry_of_lookup_some k0 v0 v2 m2 hl] at he
        cases hv : mergeValue v0 k0 v2 with
        | ok v => rw [hv] at he; cases he
        | error err1 =>
          rw [hv] at he
          injection he with he
          subst he
          exact ⟨k0, v0, v2, by simp [Mapping.lookup], hl, hv⟩
    | ok m2' =>
      rw [he] at h
      obtain ⟨k, v1, v2, h1, h2, hv⟩ := ih m2' err hn'.2 h
      have hmem : k ∈ Mapping.keys rest := (Mapping.lookup_isSome_iff rest k).1 ⟨v1, h1⟩
      have hk : k0 ≠ k := fun x => hn'.1 (x ▸ hmem)
      refine ⟨k, v1, v2, ?_, ?_, hv⟩
      · simp [Mapping.lookup, hk, h1]
      · rw [← mergeEntry_lookup_of_ne k0 k v0 m2 m2' he hk]
        exact h2

/-- The type dispatch fails on a difference of dynamic type, on two scalars,
or on two mappings whose own merge fails. -/
theorem mergeValue_error_cases (k : Scalar) (v1 v2 : Value) :
    (∃ err, mergeValue v1 k v2 = .error err) ↔
      ((Value.kind v1 ≠ Value.kind v2 ∨ Value.kind v1 = .scalar) ∨
        ∃ a b, v1 = .map a ∧ v2 = .map b ∧ ∃ err, mergeMaps a b = .error err) := by
  cases v1 with
  | scalar s => simp [mergeValue_scalar, Value.kind]
  | seq xs =>
    cases v2 with
    | seq ys => simp [mergeValue_seq_seq, Value.kind]
    | scalar s => simp [mergeValue_seq_of_not_seq, Value.kind]
    | map b => simp [mergeValue_seq_of_not_seq, Value.kind]
  | map a =>
    cases v2 with
    | map b =>
      rw [mergeValue_map_map]
      rcases except_error_or_ok (mergeMaps a b) with ⟨err, hab⟩ | ⟨ab, hab⟩
      · simp [hab, Value.kind]
      · simp [hab, Value.kind]
    | scalar s => simp [mergeValue_map_of_not_map, Value.kind]
    | seq ys => simp [mergeValue_map_of_not_map, Value.kind]

/-- With unique keys at every depth of the source, a merge fails exactly when
the two mappings conflict at some depth. -/
theorem mergeMaps_error_iff_conflict (m1 : Mapping) (hd : Mapping.Deep m1) :
    ∀ m2, (∃ err, mergeMaps m1 m2 = .error err) ↔ Conflict m1 m2 := by
  induction hd with
  | intro m hn _ ih =>
    intro m2
    constructor
    · rintro ⟨err, herr⟩
      obtain ⟨k, v1, v2, h1, h2, hv⟩ := mergeMaps_conflict_of_error m m2 err hn herr
      rcases (mergeValue_error_cases k v1 v2).1 ⟨err, hv⟩ with hkind | ⟨a, b, rfl, rfl, hab⟩
      · exact Conflict.here k v1 v2 h1 h2 hkind
      · exact Conflict.nested k a b h1 h2 ((ih k a h1 b).1 hab)
    · intro hc
      cases hc with
      | here k v1 v2 h1 h2 hkind =>
        exact mergeMaps_error_of_conflict m m2 k v1 v2 h1 h2
          ((mergeValue_error_cases k v1 v2).2 (Or.inl hkind))
      | nested k a b h1 h2 hab =>
        exact mergeMaps_error_of_conflict m m2 k (.map a) (.map b) h1 h2
          ((mergeValue_error_cases k (.map a) (.map b)).2
            (Or.inr ⟨a, b, rfl, rfl, (ih k a h1 b).2 hab⟩))

/-- On a non-nil destination `m2`: for a source `m1` with unique keys,
`mergeMaps m1 m2` fails if and only if some key held by both maps has values
that are neither both sequences nor both mappings whose own `mergeMaps`
succeeds.  In particular a
shared key whose two values differ in dynamic type makes the merge fail, a
merge in which every shared key is reconcilable succeeds, and, for a source
with unique keys at every depth, the merge succeeds when there is no conflict
at any depth (and fails when there is one). -/
theorem mergeMaps_fails_iff (m1 m2 : Mapping) (hn : Mapping.NodupKeys m1) :
    ((∃ err, mergeMaps m1 m2 = .error err) ↔
      ∃ k v1 v2, Mapping.lookup m1 k = some v1 ∧ Mapping.lookup m2 k = some v2 ∧
        ¬ ((∃ xs ys, v1 = .seq xs ∧ v2 = .seq ys) ∨
          (∃ a b ab, v1 = .map a ∧ v2 = .map b ∧ mergeMaps a b = .ok ab))) ∧
    (∀ k v1 v2, Mapping.lookup m1 k = some v1 → Mapping.lookup m2 k = some v2 →
      Value.kind v1 ≠ Value.kind v2 → ∃ err, mergeMaps m1 m2 = .error err) ∧
    ((∀ k v1 v2, Mapping.lookup m1 k = some v1 → Mapping.lookup m2 k = some v2 →
        ((∃ xs ys, v1 = .seq xs ∧ v2 = .seq ys) ∨
          (∃ a b ab, v1 = .map a ∧ v2 = .map b ∧ mergeMaps a b = .ok ab))) →
      ∃ r, mergeMaps m1 m2 = .ok r) ∧
    (Mapping.Deep m1 →
      ((¬ Conflict m1 m2 → ∃ r, mergeMaps m1 m2 = .ok r) ∧
        (Conflict m1 m2 → ∃ err, mergeMaps m1 m2 = .error err))) := by
  have key : (∃ err, mergeMaps m1 m2 = .error err) ↔
      ∃ k v1 v2, Mapping.lookup m1 k = some v1 ∧ Mapping.lookup m2 k = some v2 ∧
        ¬ ((∃ xs ys, v1 = .seq xs ∧ v2 = .seq ys) ∨
          (∃ a b ab, v1 = .map a ∧ v2 = .map b ∧ mergeMaps a b = .ok ab)) := by
    constructor
    · rintro ⟨err, herr⟩
      obtain ⟨k, v1, v2, h1, h2, hv⟩ := mergeMaps_conflict_of_error m1 m2 err hn herr
      exact ⟨k, v1, v2, h1, h2, (mergeValue_error_iff k v1 v2).1 ⟨err, hv⟩⟩
    · rintro ⟨k, v1, v2, h1, h2, hbad⟩
      exact mergeMaps_error_of_conflict m1 m2 k v1 v2 h1 h2
        ((mergeValue_error_iff k v1 v2).2 hbad)
  refine ⟨key, ?_, ?_, ?_⟩
  · intro k v1 v2 h1 h2 hkind
    exact mergeMaps_error_of_conflict m1 m2 k v1 v2 h1 h2
      (mergeValue_error_of_kind_ne k v1 v2 hkind)
  · intro hall
    rcases except_error_or_ok (mergeMaps m1 m2) with hfail | hok
    · obtain ⟨k, v1, v2, h1, h2, hbad⟩ := key.1 hfail
      exact absurd (hall k v1 v2 h1 h2) hbad
    · exact hok
  · intro hd
    refine ⟨?_, (mergeMaps_error_iff_conflict m1 hd m2).2⟩
    intro hno
    rcases except_error_or_ok (mergeMaps m1 m2) with hfail | hok
    · exact absurd ((mergeMaps_error_iff_conflict m1 hd m2).1 hfail) hno
    · exact hok

/-- An instance of `mergeMaps_fails_iff`: merging `a: [1]` into `a: {}` (sequence against mapping)
fails; merging `a: [1]` into `b: [2]` (no shared key) succeeds; and merging
`info: {title: "A"}` into `info: {title: "B"}`, which conflict one level
down, fails. -/
theorem mergeMaps_fails_iff_witness :
    (∃ err, mergeMaps [(Scalar.str "a", Value.seq [.scalar (.int 1)])]
        [(Scalar.str "a", Value.map [])] = .error err) ∧
    (∃ r, mergeMaps [(Scalar.str "a", Value.seq [.scalar (.int 1)])]
        [(Scalar.str "b", Value.seq [.scalar (.int 2)])] = .ok r) ∧
    (∃ err, mergeMaps [(Scalar.str "info", Value.map [(.str "title", .scalar (.str "A"))])]
        [(Scalar.str "info", Value.map [(.str "title", .scalar (.str "B"))])] = .error err) :=
  ⟨(mergeMaps_fails_iff [(.str "a", .seq [.scalar (.int 1)])] [(.str "a", .map [])]
      (by decide)).2.1 (.str "a") (.seq [.scalar (.int 1)]) (.map []) rfl rfl (by decide),
    (mergeMaps_fails_iff [(.str "a", .seq [.scalar (.int 1)])]
      [(.str "b", .seq [.scalar (.int 2)])] (by decide)).2.2.1
      (by
        intro k v1 v2 h1 h2
        have hk : k ∈ Mapping.keys [(Scalar.str "a", Value.seq [.scalar (.int 1)])] :=
          (Mapping.lookup_isSome_iff _ k).1 ⟨v1, h1⟩
        have hk' : k ∈ Mapping.keys [(Scalar.str "b", Value.seq [.scalar (.int 2)])] :=
          (Mapping.lookup_isSome_iff _ k).1 ⟨v2, h2⟩
        simp at hk hk'
        rw [hk] at hk'
        exact absurd hk' (by decide)),
    ((mergeMaps_fails_iff [(.str "info", .map [(.str "title", .scalar (.str "A"))])]
      [(.str "info", .map [(.str "title", .scalar (.str "B"))])] (by decide)).2.2.2
      (Mapping.Deep.intro _ (by decide) (by
        intro k a h
        by_cases hk : Scalar.str "info" = k
        · simp only [Mapping.lookup, hk, if_true, Option.some.injEq, Value.map.injEq] at h
          subst h
          exact Mapping.Deep.intro _ (by decide) (by
            intro k' a' h'
            by_cases hk' : Scalar.str "title" = k'
            · simp [Mapping.lookup, hk'] at h'
            · simp [Mapping.lookup, hk'] at h')
        · simp [Mapping.lookup, hk] at h))).2
      (Conflict.nested (.str "info") [(.str "title", .scalar (.str "A"))]
        [(.str "title", .scalar (.str "B"))] rfl rfl
        (Conflict.here (.str "title") (.scalar (.str "A")) (.scalar (.str "B")) rfl rfl
          (Or.inr rfl)))⟩

/-- Claim C4.  A key that both maps hold with scalar values (null included)
makes `mergeMaps` fail, whatever the two scalars are, equal or not. -/
theorem mergeMaps_scalars_fail (m1 m2 : Mapping) (k s1 s2 : Scalar)
    (h1 : Mapping.lookup m1 k = some (.scalar s1))
    (h2 : Mapping.lookup m2 k = some (.scalar s2)) :
    ∃ err, mergeMaps m1 m2 = .error err :=
  mergeMaps_error_of_conflict m1 m2 k (.scalar s1) (.scalar s2) h1 h2
    ⟨_, mergeValue_scalar k s1 (.scalar s2)⟩

/-- Witness of C4: merging `title: "A"` into `title: "A"` (equal scalars)
fails. -/
theorem mergeMaps_scalars_fail_witness :
    ∃ err, mergeMaps [(Scalar.str "title", Value.scalar (.str "A"))]
      [(Scalar.str "title", Value.scalar (.str "A"))] = .error err :=
  mergeMaps_scalars_fail [(.str "title", .scalar (.str "A"))]
    [(.str "title", .scalar (.str "A"))] (.str "title") (.str "A") (.str "A") rfl rfl

/-! ## Mappings under a shared key -/

/-- Claim C5.  When the source `m1` (keys unique) and the destination `m2`
both hold a mapping under `k` and `mergeMaps m1 m2` succeeds, then
`mergeMaps m1[k] m2[k]` succeeds and its result is the value of the result
under `k`. -/
theorem mergeMaps_map_recurse (m1 m2 r : Mapping) (k : Scalar) (a b : Mapping)
    (hn : Mapping.NodupKeys m1)
    (h1 : Mapping.lookup m1 k = some (.map a))
    (h2 : Mapping.lookup m2 k = some (.map b))
    (h : mergeMaps m1 m2 = .ok r) :
    ∃ ab, mergeMaps a b = .ok ab ∧ Mapping.lookup r k = some (.map ab) := by
  obtain ⟨v, hv, hcase⟩ := mergeMaps_lookup_of_mem m1 m2 r k (.map a) hn h h1
  rcases hcase with ⟨hnone, _⟩ | ⟨v2, hsome, hm⟩
  · rw [h2] at hnone
    cases hnone
  · rw [h2] at hsome
    injection hsome with hsome
    subst hsome
    rw [mergeValue_map_map] at hm
    cases hab : mergeMaps a b with
    | error err => rw [hab] at hm; cases hm
    | ok ab =>
      rw [hab] at hm
      injection hm with hm
      subst hm
      exact ⟨ab, rfl, hv⟩

/-- Witness of C5: merging `a: {x: 1}` into `a: {y: 2}` gives a mapping
under `a` that holds exactly `x: 1` and `y: 2`; and the fragments
`paths: {/a: {get: {}}}`, `paths: {/b: {get: {}}}` fold to a mapping that
holds under `paths` exactly `/a: {get: {}}` and `/b: {get: {}}`. -/
theorem mergeMaps_map_recurse_witness :
    ((∃ ab, mergeMaps [(Scalar.str "x", Value.scalar (.int 1))]
          [(Scalar.str "y", Value.scalar (.int 2))] = .ok ab ∧
        Mapping.lookup [(Scalar.str "a", Value.map [(.str "y", .scalar (.int 2)),
          (.str "x", .scalar (.int 1))])] (Scalar.str "a") = some (.map ab)) ∧
      mergeMaps [(Scalar.str "a", Value.map [(.str "x", .scalar (.int 1))])]
          [(Scalar.str "a", Value.map [(.str "y", .scalar (.int 2))])]
        = .ok [(Scalar.str "a", Value.map [(.str "y", .scalar (.int 2)),
            (.str "x", .scalar (.int 1))])] ∧
      List.Perm [(Scalar.str "y", Value.scalar (.int 2)), (Scalar.str "x", Value.scalar (.int 1))]
        [(Scalar.str "x", Value.scalar (.int 1)), (Scalar.str "y", Value.scalar (.int 2))]) ∧
    (generateRun [[(Scalar.str "paths", Value.map [(.str "/a", .map [(.str "get", .map [])])])],
          [(Scalar.str "paths", Value.map [(.str "/b", .map [(.str "get", .map [])])])]]
        = .ok [(Scalar.str "paths", Value.map [(.str "/b", .map [(.str "get", .map [])]),
            (.str "/a", .map [(.str "get", .map [])])])] ∧
      List.Perm [(Scalar.str "/b", Value.map [(.str "get", .map [])]),
          (Scalar.str "/a", Value.map [(.str "get", .map [])])]
        [(Scalar.str "/a", Value.map [(.str "get", .map [])]),
          (Scalar.str "/b", Value.map [(.str "get", .map [])])]) :=
  ⟨⟨mergeMaps_map_recurse
      [(.str "a", .map [(.str "x", .scalar (.int 1))])]
      [(.str "a", .map [(.str "y", .scalar (.int 2))])]
      [(.str "a", .map [(.str "y", .scalar (.int 2)), (.str "x", .scalar (.int 1))])]
      (.str "a") [(.str "x", .scalar (.int 1))] [(.str "y", .scalar (.int 2))]
      (by decide) rfl rfl rfl,
    rfl, List.Perm.swap _ _ _⟩, rfl, List.Perm.swap _ _ _⟩

/-! ## Disjoint key sets and the empty mapping -/

theorem Mapping.lookup_append (m m' : Mapping) (k : Scalar) :
    Mapping.lookup (m ++ m') k =
      match Mapping.lookup m k with
      | some v => some v
      | none => Mapping.lookup m' k := by
  induction m with
  | nil => simp [Mapping.lookup]
  | cons e rest ih =>
    obtain ⟨k', v'⟩ := e
    by_cases h : k' = k
    · simp [Mapping.lookup, h]
    · simp [Mapping.lookup, h, ih]

/-- The lookups of `m ++ m'` when no key of `m'` is in `m`. -/
theorem Mapping.lookup_append_iff (m m' : Mapping) (k : Scalar) (v : Value)
    (hdisj : ∀ j, j ∈ Mapping.keys m' → j ∉ Mapping.keys m) :
    Mapping.lookup (m ++ m') k = some v ↔
      Mapping.lookup m k = some v ∨ Mapping.lookup m' k = some v := by
  rw [Mapping.lookup_append]
  cases hl : Mapping.lookup m k with
  | none => simp
  | some w =>
    have hk : k ∈ Mapping.keys m := (Mapping.lookup_isSome_iff m k).1 ⟨w, hl⟩
    have hnone : Mapping.lookup m' k = none :=
      (Mapping.lookup_eq_none_iff m' k).2 (fun hk' => hdisj k hk' hk)
    simp [hnone]

/-- With no shared key, every entry of `m1` is put at the end of `m2`. -/
theorem mergeMaps_of_disjoint (m1 : Mapping) :
    ∀ (m2 : Mapping), Mapping.NodupKeys m1 →
      (∀ k, k ∈ Mapping.keys m1 → k ∉ Mapping.keys m2) →
      mergeMaps m1 m2 = .ok (m2 ++ m1) := by
  induction m1 with
  | nil =>
    intro m2 _ _
    rw [mergeMaps_nil, List.append_nil]
  | cons entry rest ih =>
    intro m2 hn hdisj
    obtain ⟨k0, v0⟩ := entry
    have hn' : k0 ∉ Mapping.keys rest ∧ Mapping.NodupKeys rest := by
      simpa [Mapping.NodupKeys] using hn
    have hl : Mapping.lookup m2 k0 = none :=
      (Mapping.lookup_eq_none_iff m2 k0).2 (hdisj k0 (by simp))
    rw [mergeMaps_cons, mergeEntry_of_lookup_none k0 v0 m2 hl,
      Mapping.assign_of_lookup_none m2 k0 v0 hl]
    have hdisj' : ∀ k, k ∈ Mapping.keys rest → k ∉ Mapping.keys (m2 ++ [(k0, v0)]) := by
      intro k hk hmem
      rw [Mapping.keys_append] at hmem
      simp only [Mapping.keys_cons, Mapping.keys_nil, List.mem_append,
        List.mem_singleton] at hmem
      rcases hmem with hmem | hmem
      · exact hdisj k (by simp [hk]) hmem
      · exact hn'.1 (hmem ▸ hk)
    show mergeMaps rest (m2 ++ [(k0, v0)]) = .ok (m2 ++ (k0, v0) :: rest)
    rw [ih (m2 ++ [(k0, v0)]) hn'.2 hdisj']
    simp

theorem Mapping.nodupKeys_append (m m' : Mapping)
    (hn : Mapping.NodupKeys m) (hn' : Mapping.NodupKeys m')
    (hdisj : ∀ k, k ∈ Mapping.keys m → k ∉ Mapping.keys m') :
    Mapping.NodupKeys (m ++ m') := by
  unfold Mapping.NodupKeys at *
  rw [Mapping.keys_append]
  exact List.Nodup.append hn hn' (fun k hk hk' => hdisj k hk hk')

/-- On non-nil maps: for mappings `d1`, `d2` (keys unique) with disjoint key
sets, `mergeMaps d1 d2` and `mergeMaps d2 d1` both succeed, each result holds
exactly the entries of `d1` and of `d2` with the values they had, and the two
results are the same map (the same entries, keys unique, in another order). -/
theorem mergeMaps_disjoint_comm (d1 d2 : Mapping)
    (hn1 : Mapping.NodupKeys d1) (hn2 : Mapping.NodupKeys d2)
    (hdisj : ∀ k, k ∈ Mapping.keys d1 → k ∉ Mapping.keys d2) :
    ∃ r12 r21, mergeMaps d1 d2 = .ok r12 ∧ mergeMaps d2 d1 = .ok r21 ∧
      (∀ k v, Mapping.lookup r12 k = some v ↔
        Mapping.lookup d1 k = some v ∨ Mapping.lookup d2 k = some v) ∧
      (∀ k v, Mapping.lookup r21 k = some v ↔
        Mapping.lookup d1 k = some v ∨ Mapping.lookup d2 k = some v) ∧
      List.Perm r12 r21 ∧ Mapping.NodupKeys r12 ∧ Mapping.NodupKeys r21 := by
  have hdisj' : ∀ k, k ∈ Mapping.keys d2 → k ∉ Mapping.keys d1 :=
    fun k hk hk' => hdisj k hk' hk
  refine ⟨d2 ++ d1, d1 ++ d2, mergeMaps_of_disjoint d1 d2 hn1 hdisj,
    mergeMaps_of_disjoint d2 d1 hn2 hdisj', ?_, ?_, List.perm_append_comm,
    Mapping.nodupKeys_append d2 d1 hn2 hn1 hdisj',
    Mapping.nodupKeys_append d1 d2 hn1 hn2 hdisj⟩
  · intro k v
    rw [Mapping.lookup_append_iff d2 d1 k v hdisj, or_comm]
  · intro k v
    exact Mapping.lookup_append_iff d1 d2 k v hdisj'

/-- An instance of `mergeMaps_disjoint_comm`: `a: 1` and `b: [2]` merge in
both directions. -/
theorem mergeMaps_disjoint_comm_witness :
    ∃ r12 r21,
      mergeMaps [(Scalar.str "a", Value.scalar (.int 1))]
        [(Scalar.str "b", Value.seq [.scalar (.int 2)])] = .ok r12 ∧
      mergeMaps [(Scalar.str "b", Value.seq [.scalar (.int 2)])]
        [(Scalar.str "a", Value.scalar (.int 1))] = .ok r21 ∧
      (∀ k v, Mapping.lookup r12 k = some v ↔
        Mapping.lookup [(Scalar.str "a", Value.scalar (.int 1))] k = some v ∨
        Mapping.lookup [(Scalar.str "b", Value.seq [.scalar (.int 2)])] k = some v) ∧
      (∀ k v, Mapping.lookup r21 k = some v ↔
        Mapping.lookup [(Scalar.str "a", Value.scalar (.int 1))] k = some v ∨
        Mapping.lookup [(Scalar.str "b", Value.seq [.scalar (.int 2)])] k = some v) ∧
      List.Perm r12 r21 ∧ Mapping.NodupKeys r12 ∧ Mapping.NodupKeys r21 :=
  mergeMaps_disjoint_comm [(.str "a", .scalar (.int 1))] [(.str "b", .seq [.scalar (.int 2)])]
    (by decide) (by decide) (by decide)

/-- The non-nil empty mapping is an identity of the merge:
`mergeMaps [] m` succeeds with `m`; for `m` with unique keys `mergeMaps m []`
succeeds with `m`; and the fold over the single fragment `m` returns `m`. -/
theorem mergeMaps_empty (m : Mapping) :
    mergeMaps [] m = .ok m ∧
    (Mapping.NodupKeys m → mergeMaps m [] = .ok m) ∧
    generateRun [m] = .ok m := by
  refine ⟨mergeMaps_nil m, ?_, ?_⟩
  · intro hn
    have h := mergeMaps_of_disjoint m [] hn (by simp)
    simpa using h
  · rw [generateRun_cons, foldSpecs_nil]

/-- An instance of `mergeMaps_empty` at the mapping `a: 1, b: [2]`. -/
theorem mergeMaps_empty_witness :
    mergeMaps [(Scalar.str "a", Value.scalar (.int 1)),
        (Scalar.str "b", Value.seq [.scalar (.int 2)])] []
      = .ok [(Scalar.str "a", Value.scalar (.int 1)),
        (Scalar.str "b", Value.seq [.scalar (.int 2)])] :=
  (mergeMaps_empty [(.str "a", .scalar (.int 1)), (.str "b", .seq [.scalar (.int 2)])]).2.1
    (by decide)

/-! ## Sequences in the fold -/

/-- The fold from an accumulator that holds a sequence under `k`, over
fragments that each hold a sequence under `k`: each pass puts the elements of
the fragment before those of the accumulator. -/
theorem foldSpecs_seq_concat (k : Scalar) (fs : List Mapping) :
    ∀ (xss : List (List Value)) (acc r : Mapping) (as : List Value),
      List.Forall₂ (fun f xs => Mapping.NodupKeys f ∧ Mapping.lookup f k = some (.seq xs))
        fs xss →
      Mapping.NodupKeys acc → Mapping.lookup acc k = some (.seq as) →
      foldSpecs acc fs = .ok r →
      Mapping.lookup r k = some (.seq (xss.reverse.flatten ++ as)) := by
  induction fs with
  | nil =>
    intro xss acc r as hfs _ hacc h
    cases hfs
    rw [foldSpecs_nil] at h
    injection h with h
    subst h
    simpa using hacc
  | cons f rest ih =>
    intro xss acc r as hfs hn hacc h
    cases hfs with
    | cons hf hrest =>
      rename_i xs xss'
      obtain ⟨merged, hm, hr⟩ := foldSpecs_cons_eq_ok acc f r rest h
      have hz := mergeMaps_lookup_seq acc f merged k as xs hn hacc hf.2 hm
      have hn' := mergeMaps_nodupKeys acc f merged hm hf.1
      rw [ih xss' merged r (xs ++ as) hrest hn' hz hr]
      simp

/-- Counterexample to C2 as stated: folding the fragments `a: [1]` and
`a: [2]` leaves `a: [2, 1]`, not the accumulator's `[1]` followed by the
fragment's `[2]`. -/
theorem generateRun_seq_order_counterexample :
    generateRun [[(Scalar.str "a", Value.seq [.scalar (.int 1)])],
        [(Scalar.str "a", Value.seq [.scalar (.int 2)])]]
      = .ok [(Scalar.str "a", Value.seq [.scalar (.int 2), .scalar (.int 1)])] ∧
    Mapping.lookup [(Scalar.str "a", Value.seq [.scalar (.int 2), .scalar (.int 1)])]
        (Scalar.str "a")
      ≠ some (Value.seq ([Value.scalar (.int 1)] ++ [Value.scalar (.int 2)])) := by
  refine ⟨rfl, ?_⟩
  intro h
  simp [Mapping.lookup] at h

/-- Claim C2, amended.  The fold calls `mergeMaps(globalSpec, spec)`, so the
accumulator is the source and the fragment the destination: for fragments
`f1 .. fn` (keys unique) that each hold a sequence under `k`, a fold that
succeeds leaves under `k` the sequences in reverse discovery order,
`fn[k] ++ ... ++ f1[k]`. -/
theorem generateRun_seq_concat (k : Scalar) (fs : List Mapping)
    (xss : List (List Value)) (r : Mapping)
    (hfs : List.Forall₂
      (fun f xs => Mapping.NodupKeys f ∧ Mapping.lookup f k = some (.seq xs)) fs xss)
    (hne : fs ≠ [])
    (h : generateRun fs = .ok r) :
    Mapping.lookup r k = some (.seq xss.reverse.flatten) := by
  cases hfs with
  | nil => exact absurd rfl hne
  | cons hf hrest =>
    rename_i f xs rest xss'
    rw [generateRun_cons] at h
    rw [foldSpecs_seq_concat k rest xss' f r xs hrest hf.1 hf.2 h]
    simp

/-- Witness of the amended C2: the fragments `a: [1]`, `a: [2]`, `a: [3]`
fold to `a: [3, 2, 1]`. -/
theorem generateRun_seq_concat_witness :
    Mapping.lookup [(Scalar.str "a", Value.seq [.scalar (.int 3), .scalar (.int 2),
        .scalar (.int 1)])] (Scalar.str "a")
      = some (.seq [[Value.scalar (.int 1)], [Value.scalar (.int 2)],
          [Value.scalar (.int 3)]].reverse.flatten) :=
  generateRun_seq_concat (.str "a")
    [[(.str "a", .seq [.scalar (.int 1)])], [(.str "a", .seq [.scalar (.int 2)])],
      [(.str "a", .seq [.scalar (.int 3)])]]
    [[.scalar (.int 1)], [.scalar (.int 2)], [.scalar (.int 3)]]
    [(.str "a", .seq [.scalar (.int 3), .scalar (.int 2), .scalar (.int 1)])]
    (.cons ⟨by decide, rfl⟩ (.cons ⟨by decide, rfl⟩ (.cons ⟨by decide, rfl⟩ .nil)))
    (by simp) rfl

/-! ## The fold stops at the first error -/

theorem foldSpecs_append (pre post : List Mapping) :
    ∀ (acc : Mapping), foldSpecs acc (pre ++ post) =
      match foldSpecs acc pre with
      | .error err => .error err
      | .ok acc' => foldSpecs acc' post := by
  induction pre with
  | nil => intro acc; rfl
  | cons f rest ih =>
    intro acc
    rw [List.cons_append, foldSpecs_cons, foldSpecs_cons]
    cases mergeMaps acc f with
    | error err => rfl
    | ok merged => exact ih merged

/-- A failing fold splits at the fragment whose merge fails. -/
theorem foldSpecs_error_split (fs : List Mapping) :
    ∀ (acc0 : Mapping) (err : String), foldSpecs acc0 fs = .error err →
      ∃ pre f post acc, fs = pre ++ f :: post ∧ foldSpecs acc0 pre = .ok acc ∧
        mergeMaps acc f = .error err := by
  induction fs with
  | nil => intro acc0 err h; cases h
  | cons f rest ih =>
    intro acc0 err h
    rw [foldSpecs_cons] at h
    cases hm : mergeMaps acc0 f with
    | error err0 =>
      rw [hm] at h
      injection h with h
      subst h
      exact ⟨[], f, rest, acc0, rfl, rfl, hm⟩
    | ok merged =>
      rw [hm] at h
      obtain ⟨pre, g, post, acc, hfs, hpre, hg⟩ := ih merged err h
      refine ⟨f :: pre, g, post, acc, by rw [hfs]; rfl, ?_, hg⟩
      rw [foldSpecs_cons, hm]
      exact hpre

theorem foldSpecs_error_of_split (pre post : List Mapping) (f acc0 acc : Mapping)
    (err : String) (hpre : foldSpecs acc0 pre = .ok acc)
    (hf : mergeMaps acc f = .error err) :
    foldSpecs acc0 (pre ++ f :: post) = .error err := by
  rw [foldSpecs_append, hpre]
  show foldSpecs acc (f :: post) = .error err
  rw [foldSpecs_cons, hf]

theorem foldSpecs_ok_of_prefix (pre tail : List Mapping) (acc0 acc : Mapping)
    (h : foldSpecs acc0 (pre ++ tail) = .ok acc) :
    ∃ acc', foldSpecs acc0 pre = .ok acc' := by
  rw [foldSpecs_append] at h
  cases hp : foldSpecs acc0 pre with
  | error err => rw [hp] at h; cases h
  | ok acc' => exact ⟨acc', rfl⟩

/-- Claim C8.  The fold fails with `err` if and only if the fragment list
splits as `pre ++ f :: post` where the fold of `pre` succeeds with an
accumulator `acc` and `mergeMaps acc f` fails with `err`.  For such a split
the fragments after `f` have no effect on the outcome, every prefix of `pre`
folds successfully (so `f` is the first fragment whose merge fails), and the
fold yields no mapping. -/
theorem generateRun_first_error (fs : List Mapping) (err : String) :
    (generateRun fs = .error err ↔
      ∃ pre f post acc, fs = pre ++ f :: post ∧ generateRun pre = .ok acc ∧
        mergeMaps acc f = .error err) ∧
    (∀ pre f post acc, fs = pre ++ f :: post → generateRun pre = .ok acc →
      mergeMaps acc f = .error err →
      (∀ post', generateRun (pre ++ f :: post') = .error err) ∧
      (∀ pre' tail, pre = pre' ++ tail → ∃ acc', generateRun pre' = .ok acc') ∧
      ¬ ∃ r, generateRun fs = .ok r) := by
  constructor
  · constructor
    · intro h
      exact foldSpecs_error_split fs [] err h
    · rintro ⟨pre, f, post, acc, rfl, hpre, hf⟩
      exact foldSpecs_error_of_split pre post f [] acc err hpre hf
  · intro pre f post acc hfs hpre hf
    refine ⟨fun post' => foldSpecs_error_of_split pre post' f [] acc err hpre hf, ?_, ?_⟩
    · intro pre' tail hsplit
      subst hsplit
      exact foldSpecs_ok_of_prefix pre' tail [] acc hpre
    · rintro ⟨r, hr⟩
      have herr : generateRun fs = .error err := by
        rw [hfs]
        exact foldSpecs_error_of_split pre post f [] acc err hpre hf
      rw [herr] at hr
      cases hr

/-- Witness of C8: of the fragments `a: [1]`, `t: 1`, `t: 2`, `a: 7`, the
third is the first whose merge fails; the fold fails with its error and the
fourth fragment (which would conflict on `a`) is not reached. -/
theorem generateRun_first_error_witness :
    generateRun [[(Scalar.str "a", Value.seq [.scalar (.int 1)])],
        [(Scalar.str "t", Value.scalar (.int 1))],
        [(Scalar.str "t", Value.scalar (.int 2))],
        [(Scalar.str "a", Value.scalar (.int 7))]]
      = .error (errDuplicate (.str "t")) :=
  (generateRun_first_error
      [[(.str "a", .seq [.scalar (.int 1)])], [(.str "t", .scalar (.int 1))],
        [(.str "t", .scalar (.int 2))], [(.str "a", .scalar (.int 7))]]
      (errDuplicate (.str "t"))).1.2
    ⟨[[(.str "a", .seq [.scalar (.int 1)])], [(.str "t", .scalar (.int 1))]],
      [(.str "t", .scalar (.int 2))],
      [[(.str "a", .scalar (.int 7))]],
      [(.str "t", .scalar (.int 1)), (.str "a", .seq [.scalar (.int 1)])],
      rfl, rfl, rfl⟩

/-! ## Which error is reported -/

/-- When `k` is the only shared key, the error of the type dispatch on `k` is
the error of the merge, in whatever order the keys are visited. -/
theorem mergeMaps_error_of_only_shared (m1 : Mapping) :
    ∀ (m2 : Mapping) (k : Scalar) (v1 v2 : Value) (err : String),
      Mapping.NodupKeys m1 →
      Mapping.lookup m1 k = some v1 → Mapping.lookup m2 k = some v2 →
      (∀ j, j ∈ Mapping.keys m1 → j ∈ Mapping.keys m2 → j = k) →
      mergeValue v1 k v2 = .error err →
      mergeMaps m1 m2 = .error err := by
  induction m1 with
  | nil =>
    intro m2 k v1 v2 err _ h1
    simp [Mapping.lookup] at h1
  | cons entry rest ih =>
    intro m2 k v1 v2 err hn h1 h2 honly hv
    obtain ⟨k0, v0⟩ := entry
    have hn' : k0 ∉ Mapping.keys rest ∧ Mapping.NodupKeys rest := by
      simpa [Mapping.NodupKeys] using hn
    rw [mergeMaps_cons]
    by_cases hk : k0 = k
    · subst hk
      simp only [Mapping.lookup, if_true, Option.some.injEq] at h1
      subst h1
      rw [mergeEntry_of_lookup_some k0 v0 v2 m2 h2, hv]
    · simp only [Mapping.lookup, hk, if_false] at h1
      have hk0 : k0 ∉ Mapping.keys m2 := fun hmem => hk (honly k0 (by simp) hmem)
      have hl : Mapping.lookup m2 k0 = none := (Mapping.lookup_eq_none_iff m2 k0).2 hk0
      rw [mergeEntry_of_lookup_none k0 v0 m2 hl]
      show mergeMaps rest (Mapping.assign m2 k0 v0) = .error err
      apply ih (Mapping.assign m2 k0 v0) k v1 v2 err hn'.2 h1
      · rw [Mapping.lookup_assign_of_ne m2 k0 k v0 hk]
        exact h2
      · intro j hj hj'
        rw [Mapping.mem_keys_assign] at hj'
        rcases hj' with hj' | hj'
        · exact absurd (hj' ▸ hj) hn'.1
        · exact honly j (by simp [hj]) hj'
      · exact hv

theorem errLists_ne_errObjects (j k : Scalar) : errLists j ≠ errObjects k := by
  intro h
  unfold errLists errObjects at h
  have h' := congrArg (fun s => (s.data.reverse.take 6)) h
  simp [String.data_append] at h'

theorem errLists_ne_errDuplicate (j k : Scalar) : errLists j ≠ errDuplicate k := by
  intro h
  unfold errLists errDuplicate at h
  have h' := congrArg (fun s => s.data.head?) h
  simp [String.data_append] at h'

theorem errObjects_ne_errDuplicate (j k : Scalar) : errObjects j ≠ errDuplicate k := by
  intro h
  unfold errObjects errDuplicate at h
  have h' := congrArg (fun s => s.data.head?) h
  simp [String.data_append] at h'

theorem errDuplicate_ne_of_fmtS_ne (j k : Scalar) (hne : fmtS j ≠ fmtS k) :
    errDuplicate j ≠ errDuplicate k := by
  intro h
  unfold errDuplicate at h
  have h' := congrArg String.data h
  simp only [String.data_append] at h'
  exact hne (String.ext (List.append_cancel_left (List.append_cancel_right h')))

/-- Claim C9.  For mappings `m1` (keys unique) and `m2` whose only shared key
is `k`: `mergeMaps m1 m2` fails with the lists message for `k` when `m1[k]` is
a sequence and `m2[k]` is not, with the objects message for `k` when `m1[k]`
is a mapping and `m2[k]` is not, and with the duplicate message for `k` when
both are scalars.  The three messages are pairwise distinct and each is a
fixed text around the `%s` rendering of `k`, which for a string key is the
key itself. -/
theorem mergeMaps_conflict_reason (m1 m2 : Mapping) (k : Scalar) (v1 v2 : Value)
    (hn : Mapping.NodupKeys m1)
    (h1 : Mapping.lookup m1 k = some v1) (h2 : Mapping.lookup m2 k = some v2)
    (honly : ∀ j, j ∈ Mapping.keys m1 → j ∈ Mapping.keys m2 → j = k) :
    ((∃ xs, v1 = .seq xs) → (¬ ∃ ys, v2 = .seq ys) →
      mergeMaps m1 m2 = .error (errLists k)) ∧
    ((∃ a, v1 = .map a) → (¬ ∃ b, v2 = .map b) →
      mergeMaps m1 m2 = .error (errObjects k)) ∧
    ((∃ s1, v1 = .scalar s1) → (∃ s2, v2 = .scalar s2) →
      mergeMaps m1 m2 = .error (errDuplicate k)) ∧
    (errLists k ≠ errObjects k ∧ errLists k ≠ errDuplicate k ∧
      errObjects k ≠ errDuplicate k) ∧
    (errLists k =
        "Merging failed, expected both entries for \"" ++ fmtS k ++ "\" to be lists." ∧
      errObjects k =
        "Merging failed, expected both entries for \"" ++ fmtS k ++ "\" to be objects." ∧
      errDuplicate k =
        "Specification invalid, duplicate entry for \"" ++ fmtS k ++ "\" encountered.") ∧
    (∀ s, k = .str s → fmtS k = s) := by
  refine ⟨?_, ?_, ?_, ⟨errLists_ne_errObjects k k, errLists_ne_errDuplicate k k,
    errObjects_ne_errDuplicate k k⟩, ⟨rfl, rfl, rfl⟩, ?_⟩
  · rintro ⟨xs, rfl⟩ hnot
    exact mergeMaps_error_of_only_shared m1 m2 k (.seq xs) v2 _ hn h1 h2 honly
      (mergeValue_seq_of_not_seq k xs v2 hnot)
  · rintro ⟨a, rfl⟩ hnot
    exact mergeMaps_error_of_only_shared m1 m2 k (.map a) v2 _ hn h1 h2 honly
      (mergeValue_map_of_not_map k a v2 hnot)
  · rintro ⟨s1, rfl⟩ _
    exact mergeMaps_error_of_only_shared m1 m2 k (.scalar s1) v2 _ hn h1 h2 honly
      (mergeValue_scalar k s1 v2)
  · rintro s rfl
    rfl

/-- Witness of C9: merging `x: 0, tags: [1]` into `tags: {}, y: 0` fails with
the lists message for `tags`. -/
theorem mergeMaps_conflict_reason_witness :
    mergeMaps [(Scalar.str "x", Value.scalar (.int 0)), (Scalar.str "tags", Value.seq [.scalar (.int 1)])]
        [(Scalar.str "tags", Value.map []), (Scalar.str "y", Value.scalar (.int 0))]
      = .error (errLists (.str "tags")) :=
  (mergeMaps_conflict_reason
      [(.str "x", .scalar (.int 0)), (.str "tags", .seq [.scalar (.int 1)])]
      [(.str "tags", .map []), (.str "y", .scalar (.int 0))]
      (.str "tags") (.seq [.scalar (.int 1)]) (.map [])
      (by decide) rfl rfl
      (by
        intro j hj hj'
        simp at hj hj'
        rcases hj with rfl | rfl
        · exact absurd hj' (by decide)
        · rfl)).1
    ⟨_, rfl⟩ (by rintro ⟨ys, h⟩; cases h)

/-- Claim C10.  For two fragments `f1`, `f2` whose only shared key `p` holds
mappings on both sides, these sharing only the key `t`, with scalar values on
both sides (keys unique in `f1` and in `f1[p]`): the fold of `f1` then `f2`
from the empty accumulator fails with the duplicate message for `t`, the
innermost key, and yields no mapping; that message differs from the one for
`p` whenever the two keys are rendered differently. -/
theorem generateRun_nested_conflict (f1 f2 a b : Mapping) (p t s1 s2 : Scalar)
    (hn1 : Mapping.NodupKeys f1) (hna : Mapping.NodupKeys a)
    (hp1 : Mapping.lookup f1 p = some (.map a))
    (hp2 : Mapping.lookup f2 p = some (.map b))
    (honly : ∀ j, j ∈ Mapping.keys f1 → j ∈ Mapping.keys f2 → j = p)
    (ht1 : Mapping.lookup a t = some (.scalar s1))
    (ht2 : Mapping.lookup b t = some (.scalar s2))
    (honly' : ∀ j, j ∈ Mapping.keys a → j ∈ Mapping.keys b → j = t) :
    generateRun [f1, f2] = .error (errDuplicate t) ∧
    (¬ ∃ r, generateRun [f1, f2] = .ok r) ∧
    errDuplicate t =
      "Specification invalid, duplicate entry for \"" ++ fmtS t ++ "\" encountered." ∧
    (fmtS t ≠ fmtS p → errDuplicate t ≠ errDuplicate p) := by
  have hinner : mergeMaps a b = .error (errDuplicate t) :=
    mergeMaps_error_of_only_shared a b t (.scalar s1) (.scalar s2) _ hna ht1 ht2 honly'
      (mergeValue_scalar t s1 (.scalar s2))
  have hvalue : mergeValue (.map a) p (.map b) = .error (errDuplicate t) := by
    rw [mergeValue_map_map, hinner]
  have houter : mergeMaps f1 f2 = .error (errDuplicate t) :=
    mergeMaps_error_of_only_shared f1 f2 p (.map a) (.map b) _ hn1 hp1 hp2 honly hvalue
  have hrun : generateRun [f1, f2] = .error (errDuplicate t) := by
    rw [generateRun_cons, foldSpecs_cons, houter]
  refine ⟨hrun, ?_, rfl, errDuplicate_ne_of_fmtS_ne t p⟩
  rintro ⟨r, hr⟩
  rw [hrun] at hr
  cases hr

/-- Witness of C10: the fragments `info: {title: "A"}` and
`info: {title: "B"}` fold to the duplicate error naming `title`. -/
theorem generateRun_nested_conflict_witness :
    generateRun [[(Scalar.str "info", Value.map [(.str "title", .scalar (.str "A"))])],
        [(Scalar.str "info", Value.map [(.str "title", .scalar (.str "B"))])]]
      = .error "Specification invalid, duplicate entry for \"title\" encountered." :=
  (generateRun_nested_conflict
      [(.str "info", .map [(.str "title", .scalar (.str "A"))])]
      [(.str "info", .map [(.str "title", .scalar (.str "B"))])]
      [(.str "title", .scalar (.str "A"))] [(.str "title", .scalar (.str "B"))]
      (.str "info") (.str "title") (.str "A") (.str "B")
      (by decide) (by decide) rfl rfl
      (by intro j hj _; simpa using hj)
      rfl rfl
      (by intro j hj _; simpa using hj)).1

/-! ## Searching and splitting -/

theorem index_eq_none_iff (s substr : List Char) :
    index s substr = none ↔ ¬ substr <:+: s := by
  induction s with
  | nil =>
    simp [index, List.isPrefixOf_iff_prefix, List.infix_nil]
  | cons c t ih =>
    rw [index, List.infix_cons_iff]
    by_cases hp : substr.isPrefixOf (c :: t) = true
    · have hp' : substr <+: c :: t := List.isPrefixOf_iff_prefix.1 hp
      simp [hp, hp']
    · have hp' : ¬ substr <+: c :: t := fun h => hp (List.isPrefixOf_iff_prefix.2 h)
      simp [hp, hp', ih]

theorem index_eq_some (s substr : List Char) :
    ∀ m, index s substr = some m → substr <+: s.drop m ∧ m + substr.length ≤ s.length := by
  induction s with
  | nil =>
    intro m h
    rw [index] at h
    by_cases hp : substr.isPrefixOf [] = true
    · rw [if_pos hp] at h
      injection h with h
      subst h
      have hp' : substr <+: [] := List.isPrefixOf_iff_prefix.1 hp
      have : substr = [] := List.prefix_nil.1 hp'
      subst this
      simp
    · rw [if_neg hp] at h
      cases h
  | cons c t ih =>
    intro m h
    rw [index] at h
    by_cases hp : substr.isPrefixOf (c :: t) = true
    · rw [if_pos hp] at h
      injection h with h
      subst h
      have hp' : substr <+: c :: t := List.isPrefixOf_iff_prefix.1 hp
      exact ⟨by simpa using hp', by simpa using hp'.length_le⟩
    · rw [if_neg hp] at h
      cases hi : index t substr with
      | none => rw [hi] at h; cases h
      | some m' =>
        rw [hi] at h
        simp only [Option.map_some', Option.some.injEq] at h
        subst h
        obtain ⟨h1, h2⟩ := ih m' hi
        exact ⟨by simpa using h1, by simp only [List.length_cons]; omega⟩

theorem mem_splitFuel_part (sep : List Char) (fuel : Nat) :
    ∀ (s seg : List Char), seg ∈ splitFuel fuel s sep → seg <:+: s := by
  induction fuel with
  | zero =>
    intro s seg h
    simp only [splitFuel, List.mem_singleton] at h
    subst h
    exact List.infix_refl _
  | succ fuel ih =>
    intro s seg h
    rw [splitFuel] at h
    cases hi : index s sep with
    | none =>
      rw [hi] at h
      simp only [List.mem_singleton] at h
      subst h
      exact List.infix_refl _
    | some m =>
      rw [hi] at h
      simp only [List.mem_cons] at h
      rcases h with h | h
      · subst h
        exact (List.take_prefix m s).isInfix
      · exact (ih _ seg h).trans (List.drop_suffix _ s).isInfix

/-- Every segment of a split is a part of the text. -/
theorem mem_split_part (s sep seg : List Char) (h : seg ∈ split s sep) : seg <:+: s :=
  mem_splitFuel_part sep s.length s seg h

theorem splitFuel_fuel (sep : List Char) (hsep : sep ≠ []) (fuel : Nat) :
    ∀ (fuel' : Nat) (s : List Char), s.length ≤ fuel → s.length ≤ fuel' →
      splitFuel fuel s sep = splitFuel fuel' s sep := by
  induction fuel with
  | zero =>
    intro fuel' s h _
    have hs : s = [] := List.length_eq_zero.1 (Nat.le_zero.1 h)
    subst hs
    have hi : index [] sep = none := by simp [index, List.isPrefixOf_iff_prefix, hsep]
    cases fuel' with
    | zero => rfl
    | succ f => simp [splitFuel, hi]
  | succ fuel ih =>
    intro fuel' s h h'
    cases hi : index s sep with
    | none =>
      cases fuel' with
      | zero => simp [splitFuel, hi]
      | succ f => simp [splitFuel, hi]
    | some m =>
      obtain ⟨_, hlen⟩ := index_eq_some s sep m hi
      have hpos : 0 < sep.length := List.length_pos.2 hsep
      cases fuel' with
      | zero => omega
      | succ f =>
        simp only [splitFuel, hi]
        rw [ih f (s.drop (m + sep.length)) (by simp only [List.length_drop]; omega)
          (by simp only [List.length_drop]; omega)]

/-- The loop of `strings.Split`: without an occurrence of the separator the
text is the only segment; otherwise the text before the first occurrence is
the first segment and the text after it is split in turn. -/
theorem split_eq (s sep : List Char) (hsep : sep ≠ []) :
    split s sep =
      match index s sep with
      | none => [s]
      | some m => s.take m :: split (s.drop (m + sep.length)) sep := by
  unfold split
  cases hi : index s sep with
  | none =>
    cases hl : s.length with
    | zero => simp [splitFuel]
    | succ n => simp [splitFuel, hi]
  | some m =>
    obtain ⟨_, hlen⟩ := index_eq_some s sep m hi
    have hpos : 0 < sep.length := List.length_pos.2 hsep
    cases hl : s.length with
    | zero => omega
    | succ n =>
      simp only [splitFuel, hi]
      rw [splitFuel_fuel sep hsep n (s.drop (m + sep.length)).length _
        (by simp only [List.length_drop]; omega) (le_refl _)]

theorem split_of_no_marker (s sep : List Char) (h : ¬ sep <:+: s) : split s sep = [s] := by
  have hi : index s sep = none := (index_eq_none_iff s sep).2 h
  unfold split
  cases hl : s.length with
  | zero => simp [splitFuel]
  | succ n => simp [splitFuel, hi]

/-! ## The extraction loop -/

theorem extractLoop_nil {ε : Type} (u : List Char → Except ε Mapping)
    (fs : List Mapping) (p : List (List Char)) :
    extractLoop u [] fs p = ⟨fs, p, none⟩ := rfl

theorem extractLoop_cons_of_none {ε : Type} (u : List Char → Except ε Mapping)
    (seg : List Char) (rest : List (List Char)) (fs : List Mapping) (p : List (List Char))
    (h : index seg closingMarker = none) :
    extractLoop u (seg :: rest) fs p = extractLoop u rest fs p := by
  rw [extractLoop, h]

theorem payloadOf_eq_none_iff (seg : List Char) :
    payloadOf seg = none ↔ index seg closingMarker = none := by
  unfold payloadOf
  cases index seg closingMarker <;> simp

/-- The loop over the candidates is the loop over the payloads of the
accepted candidates. -/
theorem extractLoop_eq_runPayloads {ε : Type} (u : List Char → Except ε Mapping)
    (segs : List (List Char)) :
    ∀ (fs : List Mapping) (p : List (List Char)),
      extractLoop u segs fs p = runPayloads u (segs.filterMap payloadOf) fs p := by
  induction segs with
  | nil => intro fs p; rfl
  | cons seg rest ih =>
    intro fs p
    cases hi : index seg closingMarker with
    | none =>
      have hp : payloadOf seg = none := (payloadOf_eq_none_iff seg).2 hi
      rw [extractLoop_cons_of_none u seg rest fs p hi, List.filterMap_cons_none hp]
      exact ih fs p
    | some trimIdx =>
      have hp : payloadOf seg = some (trimSpace (seg.take trimIdx)) := by
        simp [payloadOf, hi]
      rw [List.filterMap_cons_some hp, extractLoop, hi, runPayloads]
      dsimp only
      cases u (trimSpace (seg.take trimIdx)) with
      | error err => rfl
      | ok specMap => exact ih _ _

theorem extractFile_eq_runPayloads {ε : Type} (u : List Char → Except ε Mapping)
    (content : List Char) (fs : List Mapping) :
    extractFile u content fs = runPayloads u (payloads content) fs [] :=
  extractLoop_eq_runPayloads u (split content openingMarker) fs []

/-- A candidate without closing literal leaves the loop as it was. -/
theorem extractLoop_skip {ε : Type} (u : List Char → Except ε Mapping)
    (seg : List Char) (segs2 : List (List Char)) (h : index seg closingMarker = none)
    (segs1 : List (List Char)) :
    ∀ (fs : List Mapping) (p : List (List Char)),
      extractLoop u (segs1 ++ seg :: segs2) fs p = extractLoop u (segs1 ++ segs2) fs p := by
  intro fs p
  rw [extractLoop_eq_runPayloads, extractLoop_eq_runPayloads, List.filterMap_append,
    List.filterMap_append, List.filterMap_cons_none ((payloadOf_eq_none_iff seg).2 h)]

theorem runPayloads_all_ok {ε : Type} (u : List Char → Except ε Mapping)
    (ps : List (List Char)) :
    ∀ (fs : List Mapping) (p : List (List Char)),
      (∀ q, q ∈ ps → ∃ m, u q = .ok m) →
      ∃ ms, List.Forall₂ (fun q m => u q = .ok m) ps ms ∧
        runPayloads u ps fs p = ⟨fs ++ ms, p ++ ps, none⟩ := by
  induction ps with
  | nil =>
    intro fs p _
    exact ⟨[], List.Forall₂.nil, by simp [runPayloads]⟩
  | cons q rest ih =>
    intro fs p hall
    obtain ⟨m, hm⟩ := hall q (by simp)
    obtain ⟨ms, hms, hrun⟩ := ih (fs ++ [m]) (p ++ [q]) (fun q' hq' => hall q' (by simp [hq']))
    refine ⟨m :: ms, List.Forall₂.cons hm hms, ?_⟩
    rw [runPayloads, hm]
    simpa using hrun

theorem runPayloads_append_of_ok {ε : Type} (u : List Char → Except ε Mapping)
    (pre : List (List Char)) :
    ∀ (post : List (List Char)) (fs : List Mapping) (p : List (List Char)),
      (∀ q, q ∈ pre → ∃ m, u q = .ok m) →
      ∃ ms, List.Forall₂ (fun q m => u q = .ok m) pre ms ∧
        runPayloads u (pre ++ post) fs p = runPayloads u post (fs ++ ms) (p ++ pre) := by
  induction pre with
  | nil =>
    intro post fs p _
    exact ⟨[], List.Forall₂.nil, by simp⟩
  | cons q rest ih =>
    intro post fs p hall
    obtain ⟨m, hm⟩ := hall q (by simp)
    obtain ⟨ms, hms, hrun⟩ :=
      ih post (fs ++ [m]) (p ++ [q]) (fun q' hq' => hall q' (by simp [hq']))
    refine ⟨m :: ms, List.Forall₂.cons hm hms, ?_⟩
    rw [List.cons_append, runPayloads, hm]
    simpa using hrun

/-- A run that ends with an error splits at the first payload that fails to
parse. -/
theorem runPayloads_err_split {ε : Type} (u : List Char → Except ε Mapping)
    (ps : List (List Char)) :
    ∀ (fs : List Mapping) (p : List (List Char)) (e : ε),
      (runPayloads u ps fs p).err = some e →
      ∃ pre q post, ps = pre ++ q :: post ∧ (∀ q', q' ∈ pre → ∃ m, u q' = .ok m) ∧
        u q = .error e := by
  induction ps with
  | nil =>
    intro fs p e h
    simp [runPayloads] at h
  | cons q rest ih =>
    intro fs p e h
    rw [runPayloads] at h
    cases hq : u q with
    | error err =>
      rw [hq] at h
      simp only [Option.some.injEq] at h
      subst h
      exact ⟨[], q, rest, rfl, by simp, hq⟩
    | ok m =>
      rw [hq] at h
      obtain ⟨pre, q0, post, hps, hpre, hq0⟩ := ih _ _ e h
      refine ⟨q :: pre, q0, post, by rw [hps]; rfl, ?_, hq0⟩
      intro q' hq'
      simp only [List.mem_cons] at hq'
      rcases hq' with rfl | hq'
      · exact ⟨m, hq⟩
      · exact hpre q' hq'

theorem runPayloads_of_split {ε : Type} (u : List Char → Except ε Mapping)
    (pre post : List (List Char)) (q : List Char) (fs : List Mapping)
    (p : List (List Char)) (e : ε)
    (hpre : ∀ q', q' ∈ pre → ∃ m, u q' = .ok m) (hq : u q = .error e) :
    ∃ ms, List.Forall₂ (fun q' m => u q' = .ok m) pre ms ∧
      runPayloads u (pre ++ q :: post) fs p = ⟨fs ++ ms, p ++ pre ++ [q], some e⟩ := by
  obtain ⟨ms, hms, hrun⟩ := runPayloads_append_of_ok u pre (q :: post) fs p hpre
  refine ⟨ms, hms, ?_⟩
  rw [hrun, runPayloads, hq]

theorem runPayloads_ok_of_err_none {ε : Type} (u : List Char → Except ε Mapping)
    (ps : List (List Char)) :
    ∀ (fs : List Mapping) (p : List (List Char)), (runPayloads u ps fs p).err = none →
      ∀ q, q ∈ ps → ∃ m, u q = .ok m := by
  induction ps with
  | nil => intro _ _ _ q hq; simp at hq
  | cons y rest ih =>
    intro fs p hnone q hq
    rw [runPayloads] at hnone
    cases hy : u y with
    | error ey => rw [hy] at hnone; simp at hnone
    | ok my =>
      rw [hy] at hnone
      simp only [List.mem_cons] at hq
      rcases hq with rfl | hq
      · exact ⟨my, hy⟩
      · exact ih _ _ hnone q hq

theorem payloads_eq_nil_of_no_closing (content : List Char)
    (h : ¬ closingMarker <:+: content) : payloads content = [] := by
  unfold payloads
  rw [List.filterMap_eq_nil_iff]
  intro seg hseg
  rw [payloadOf_eq_none_iff, index_eq_none_iff]
  exact fun hc => h (hc.trans (mem_split_part content openingMarker seg hseg))

/-! ## Claims about the extraction -/

/-- Claim C11, the code at a failing input.  The text made of `a: 1`, a
newline and `***/` holds no opening literal, so it is all first segment; the
loop nevertheless hands the payload `a: 1` to the parser, whatever the parser
is: the first segment is not discarded. -/
theorem extractFile_parses_first_segment :
    ¬ openingMarker <:+: "a: 1\n***/".toList ∧
    split "a: 1\n***/".toList openingMarker = ["a: 1\n***/".toList] ∧
    ∀ (ε : Type) (u : List Char → Except ε Mapping),
      (extractFile u "a: 1\n***/".toList []).parsed = ["a: 1".toList] := by
  refine ⟨(index_eq_none_iff _ _).1 (by decide), by decide, ?_⟩
  intro ε u
  rw [extractFile_eq_runPayloads]
  have hp : payloads "a: 1\n***/".toList = ["a: 1".toList] := by decide
  rw [hp, runPayloads]
  cases u "a: 1".toList <;> rfl

/-- Claim C12, the code at a failing input.  A Go file that holds the comment
`/***` ... `***/` and no opening literal: the text before the closing literal
is handed to the parser, and the extraction returns the parser's error, or
one fragment when the parser accepts the text; it never returns the empty
sequence without error. -/
theorem extractFile_without_opening_marker :
    ¬ openingMarker <:+: "package cmd\n/***\n***/\n".toList ∧
    ∀ (ε : Type) (u : List Char → Except ε Mapping),
      extractFile u "package cmd\n/***\n***/\n".toList [] =
        match u "package cmd\n/***".toList with
        | .error err => ⟨[], ["package cmd\n/***".toList], some err⟩
        | .ok specMap => ⟨[specMap], ["package cmd\n/***".toList], none⟩ := by
  refine ⟨(index_eq_none_iff _ _).1 (by decide), ?_⟩
  intro ε u
  rw [extractFile_eq_runPayloads]
  have hp : payloads "package cmd\n/***\n***/\n".toList = ["package cmd\n/***".toList] := by
    decide
  rw [hp, runPayloads]
  cases u "package cmd\n/***".toList <;> rfl

/-- Claim C13.  A segment of the split that does not contain the closing
literal has no payload, and the extraction is the loop over the other
segments: same fragments, same payloads parsed, same error.  A text without
any closing literal yields no fragment, no parse and no error. -/
theorem extractFile_skips_unclosed {ε : Type} (u : List Char → Except ε Mapping)
    (content : List Char) (fs : List Mapping) :
    (∀ (segs1 segs2 : List (List Char)) (seg : List Char),
      split content openingMarker = segs1 ++ seg :: segs2 →
      ¬ closingMarker <:+: seg →
      payloadOf seg = none ∧
        extractFile u content fs = extractLoop u (segs1 ++ segs2) fs []) ∧
    (¬ closingMarker <:+: content → extractFile u content fs = ⟨fs, [], none⟩) := by
  constructor
  · intro segs1 segs2 seg hsplit hseg
    have hi : index seg closingMarker = none := (index_eq_none_iff seg closingMarker).2 hseg
    refine ⟨(payloadOf_eq_none_iff seg).2 hi, ?_⟩
    rw [extractFile, hsplit]
    exact extractLoop_skip u seg segs2 hi segs1 fs []
  · intro h
    rw [extractFile_eq_runPayloads, payloads_eq_nil_of_no_closing content h]
    rfl

/-- Witness of C13: in a text with an unclosed block followed by a closed one,
the unclosed segment is skipped; the extraction (here with a parser that
accepts every payload as the empty mapping) is that of the other segments. -/
theorem extractFile_skips_unclosed_witness :
    extractFile (fun _ => (Except.ok [] : Except String Mapping))
        "x/*** OAS3-Specification a: 1/*** OAS3-Specification\nb: 2\n***/".toList []
      = extractLoop (fun _ => (Except.ok [] : Except String Mapping))
        (["x".toList] ++ ["\nb: 2\n***/".toList]) [] [] :=
  ((extractFile_skips_unclosed (fun _ => (Except.ok [] : Except String Mapping))
    "x/*** OAS3-Specification a: 1/*** OAS3-Specification\nb: 2\n***/".toList []).1
    ["x".toList] ["\nb: 2\n***/".toList] " a: 1".toList (by decide)
    ((index_eq_none_iff _ _).1 (by decide))).2

/-- Claim C14.  With `yaml.Unmarshal` as the parameter `u`: the extraction of
a text ends with the error `e` if and only if the payloads of its accepted
candidates split as `pre ++ q :: post` where `u` succeeds on all of `pre` and
fails with `e` on `q`; then only `pre` and `q` were handed to the parser and
`finalSpecs` gained the fragments of `pre`.  The extraction fails if and only
if `u` fails on some accepted payload; and it ends without error only when
`u` succeeded on every accepted payload, all of which were parsed and
returned. -/
theorem extractFile_error_iff {ε : Type} (u : List Char → Except ε Mapping)
    (content : List Char) (fs : List Mapping) :
    (∀ e, (extractFile u content fs).err = some e ↔
      ∃ pre q post, payloads content = pre ++ q :: post ∧
        (∀ q', q' ∈ pre → ∃ m, u q' = .ok m) ∧ u q = .error e) ∧
    (∀ e pre q post, payloads content = pre ++ q :: post →
      (∀ q', q' ∈ pre → ∃ m, u q' = .ok m) → u q = .error e →
      ∃ ms, List.Forall₂ (fun q' m => u q' = .ok m) pre ms ∧
        extractFile u content fs = ⟨fs ++ ms, pre ++ [q], some e⟩) ∧
    ((∃ e, (extractFile u content fs).err = some e) ↔
      ∃ q, q ∈ payloads content ∧ ∃ e, u q = .error e) ∧
    ((extractFile u content fs).err = none →
      ∃ ms, List.Forall₂ (fun q m => u q = .ok m) (payloads content) ms ∧
        extractFile u content fs = ⟨fs ++ ms, payloads content, none⟩) := by
  have hsplit : ∀ e pre q post, payloads content = pre ++ q :: post →
      (∀ q', q' ∈ pre → ∃ m, u q' = .ok m) → u q = .error e →
      ∃ ms, List.Forall₂ (fun q' m => u q' = .ok m) pre ms ∧
        extractFile u content fs = ⟨fs ++ ms, pre ++ [q], some e⟩ := by
    intro e pre q post hps hpre hq
    obtain ⟨ms, hms, hrun⟩ := runPayloads_of_split u pre post q fs [] e hpre hq
    refine ⟨ms, hms, ?_⟩
    rw [extractFile_eq_runPayloads, hps, hrun]
    simp
  have hallok : (∀ q, q ∈ payloads content → ∃ m, u q = .ok m) →
      ∃ ms, List.Forall₂ (fun q m => u q = .ok m) (payloads content) ms ∧
        extractFile u content fs = ⟨fs ++ ms, payloads content, none⟩ := by
    intro hall
    obtain ⟨ms, hms, hrun⟩ := runPayloads_all_ok u (payloads content) fs [] hall
    refine ⟨ms, hms, ?_⟩
    rw [extractFile_eq_runPayloads, hrun]
    simp
  have hiff : ∀ e, (extractFile u content fs).err = some e ↔
      ∃ pre q post, payloads content = pre ++ q :: post ∧
        (∀ q', q' ∈ pre → ∃ m, u q' = .ok m) ∧ u q = .error e := by
    intro e
    constructor
    · intro h
      rw [extractFile_eq_runPayloads] at h
      exact runPayloads_err_split u (payloads content) fs [] e h
    · rintro ⟨pre, q, post, hps, hpre, hq⟩
      obtain ⟨ms, _, hrun⟩ := hsplit e pre q post hps hpre hq
      rw [hrun]
  have hok : (extractFile u content fs).err = none →
      ∀ q, q ∈ payloads content → ∃ m, u q = .ok m := by
    intro hnone
    rw [extractFile_eq_runPayloads] at hnone
    exact runPayloads_ok_of_err_none u (payloads content) fs [] hnone
  have hfail : (∃ e, (extractFile u content fs).err = some e) ↔
      ∃ q, q ∈ payloads content ∧ ∃ e, u q = .error e := by
    constructor
    · rintro ⟨e, he⟩
      obtain ⟨pre, q, post, hps, _, hq⟩ := (hiff e).1 he
      exact ⟨q, by rw [hps]; simp, e, hq⟩
    · rintro ⟨q, hq, e, he⟩
      cases herr : (extractFile u content fs).err with
      | some e0 => exact ⟨e0, rfl⟩
      | none =>
        obtain ⟨m, hm⟩ := hok herr q hq
        rw [he] at hm
        cases hm
  exact ⟨hiff, hsplit, hfail, fun hnone => hallok (hok hnone)⟩

/-- Witness of C14: of two blocks, the first holds `- a`, which the parser
rejects, the second `b: 2`, which it accepts; the extraction ends with the
error of the first, only the first payload was parsed, and no fragment is
returned. -/
theorem extractFile_error_iff_witness :
    ∃ ms, List.Forall₂
        (fun q' m => (fun s => if s = "b: 2".toList
          then Except.ok [(Scalar.str "b", Value.scalar (.int 2))]
          else Except.error "yaml: unmarshal errors") q' = .ok m) [] ms ∧
      extractFile (fun s => if s = "b: 2".toList
          then Except.ok [(Scalar.str "b", Value.scalar (.int 2))]
          else Except.error "yaml: unmarshal errors")
        "/*** OAS3-Specification\n- a\n***/ /*** OAS3-Specification\nb: 2\n***/".toList []
        = ⟨[] ++ ms, [] ++ ["- a".toList], some "yaml: unmarshal errors"⟩ :=
  (extractFile_error_iff (fun s => if s = "b: 2".toList
      then Except.ok [(Scalar.str "b", Value.scalar (.int 2))]
      else Except.error "yaml: unmarshal errors")
    "/*** OAS3-Specification\n- a\n***/ /*** OAS3-Specification\nb: 2\n***/".toList []).2.1
    "yaml: unmarshal errors" [] "- a".toList ["b: 2".toList] (by decide) (by simp)
    rfl

/-- Claim C15, the code at a failing input.  A block written the way the help
text of the command prescribes, `/* OAS3-Specification`, the YAML, `*/`,
yields no fragment, no parse and no error, whatever the parser is. -/
theorem extractFile_help_text_block :
    ∀ (ε : Type) (u : List Char → Except ε Mapping) (fs : List Mapping),
      extractFile u "/* OAS3-Specification\na: 1\n*/\n".toList fs = ⟨fs, [], none⟩ := by
  intro ε u fs
  rfl

/-! ## Checking unique keys at every depth -/

mutual
theorem deep_of_deepCheck : ∀ (m : List (Scalar × Value)), deepCheck m = true →
    ∀ k a, Mapping.lookup m k = some (.map a) → Mapping.Deep a
  | [], _, k, a, h => by simp [Mapping.lookup] at h
  | (k0, v0) :: rest, hc, k, a, h => by
    rw [deepCheck, Bool.and_eq_true] at hc
    by_cases hk : k0 = k
    · simp only [Mapping.lookup, hk, if_true, Option.some.injEq] at h
      exact deep_of_deepCheckEntry (k0, v0) hc.1 a h
    · simp only [Mapping.lookup, hk, if_false] at h
      exact deep_of_deepCheck rest hc.2 k a h
termination_by structural m => m
theorem deep_of_deepCheckEntry : ∀ (entry : Scalar × Value), deepCheckEntry entry = true →
    ∀ a, entry.2 = .map a → Mapping.Deep a
  | (_, v), hc, a, h => by
    rw [deepCheckEntry] at hc
    exact deep_of_deepCheckValue v hc a h
termination_by structural entry => entry
theorem deep_of_deepCheckValue : ∀ (v : Value), deepCheckValue v = true →
    ∀ a, v = .map a → Mapping.Deep a
  | .map m, hc, a, h => by
    rw [deepCheckValue, Bool.and_eq_true, decide_eq_true_eq] at hc
    injection h with h
    subst h
    exact Mapping.Deep.intro m hc.1 (deep_of_deepCheck m hc.2)
  | .scalar _, _, a, h => by cases h
  | .seq _, _, a, h => by cases h
termination_by structural v => v
end

/-- A mapping that passes the check has unique keys at every depth. -/
theorem Mapping.deep_of_check (m : Mapping) (hn : Mapping.NodupKeys m)
    (hc : deepCheck m = true) : Mapping.Deep m :=
  Mapping.Deep.intro m hn (deep_of_deepCheck m hc)

theorem Mapping.Deep.nodupKeys {m : Mapping} (h : Mapping.Deep m) : Mapping.NodupKeys m := by
  cases h with
  | intro _ hn _ => exact hn

theorem Mapping.Deep.of_lookup {m : Mapping} (h : Mapping.Deep m) (k : Scalar) (a : Mapping)
    (hl : Mapping.lookup m k = some (.map a)) : Mapping.Deep a := by
  cases h with
  | intro _ _ hsub => exact hsub k a hl

/-! ## Keys of a merge, and the symmetry of conflicts -/

/-- Claim C17.  When `mergeMaps m1 m2` succeeds (`m1` with unique keys), the
keys of the result are those of `m1` and those of `m2`, a key that `m1` lacks
keeps the value it has in `m2`, and a key that only `m1` holds carries the
value it has in `m1`; the keys of the result are unique when those of `m2`
are. -/
theorem mergeMaps_keys_union (m1 m2 r : Mapping) (hn : Mapping.NodupKeys m1)
    (h : mergeMaps m1 m2 = .ok r) :
    (∀ k, k ∈ Mapping.keys r ↔ k ∈ Mapping.keys m1 ∨ k ∈ Mapping.keys m2) ∧
    (∀ k, k ∉ Mapping.keys m1 → Mapping.lookup r k = Mapping.lookup m2 k) ∧
    (∀ k, k ∈ Mapping.keys m1 → k ∉ Mapping.keys m2 →
      Mapping.lookup r k = Mapping.lookup m1 k) ∧
    (Mapping.NodupKeys m2 → Mapping.NodupKeys r) := by
  refine ⟨fun k => mergeMaps_mem_keys m1 m2 r k h,
    fun k hk => mergeMaps_lookup_of_not_mem m1 m2 r k h hk, ?_,
    mergeMaps_nodupKeys m1 m2 r h⟩
  intro k hk1 hk2
  obtain ⟨v1, hv1⟩ := (Mapping.lookup_isSome_iff m1 k).2 hk1
  obtain ⟨v, hv, hcase⟩ := mergeMaps_lookup_of_mem m1 m2 r k v1 hn h hv1
  rcases hcase with ⟨_, rfl⟩ | ⟨v2, hv2, _⟩
  · rw [hv, hv1]
  · exact absurd ((Mapping.lookup_isSome_iff m2 k).1 ⟨v2, hv2⟩) hk2

/-- Witness of C17: merging `a: 1, s: [1]` into `s: [2], b: 2`: the key `a`,
held by the source only, carries the source's value, and the key `b`, held by
the destination only, keeps its value. -/
theorem mergeMaps_keys_union_witness :
    Mapping.lookup [(Scalar.str "s", Value.seq [.scalar (.int 2), .scalar (.int 1)]),
        (Scalar.str "b", Value.scalar (.int 2)), (Scalar.str "a", Value.scalar (.int 1))]
        (Scalar.str "a")
      = Mapping.lookup [(Scalar.str "a", Value.scalar (.int 1)),
        (Scalar.str "s", Value.seq [.scalar (.int 1)])] (Scalar.str "a") ∧
    Mapping.lookup [(Scalar.str "s", Value.seq [.scalar (.int 2), .scalar (.int 1)]),
        (Scalar.str "b", Value.scalar (.int 2)), (Scalar.str "a", Value.scalar (.int 1))]
        (Scalar.str "b")
      = Mapping.lookup [(Scalar.str "s", Value.seq [.scalar (.int 2)]),
        (Scalar.str "b", Value.scalar (.int 2))] (Scalar.str "b") :=
  ⟨(mergeMaps_keys_union
      [(.str "a", .scalar (.int 1)), (.str "s", .seq [.scalar (.int 1)])]
      [(.str "s", .seq [.scalar (.int 2)]), (.str "b", .scalar (.int 2))]
      [(.str "s", .seq [.scalar (.int 2), .scalar (.int 1)]), (.str "b", .scalar (.int 2)),
        (.str "a", .scalar (.int 1))]
      (by decide) rfl).2.2.1 (.str "a") (by decide) (by decide),
    (mergeMaps_keys_union
      [(.str "a", .scalar (.int 1)), (.str "s", .seq [.scalar (.int 1)])]
      [(.str "s", .seq [.scalar (.int 2)]), (.str "b", .scalar (.int 2))]
      [(.str "s", .seq [.scalar (.int 2), .scalar (.int 1)]), (.str "b", .scalar (.int 2)),
        (.str "a", .scalar (.int 1))]
      (by decide) rfl).2.1 (.str "b") (by decide)⟩

theorem Conflict.symm {a b : Mapping} (h : Conflict a b) : Conflict b a := by
  induction h with
  | here k v1 v2 h1 h2 hkind =>
    refine Conflict.here k v2 v1 h2 h1 ?_
    by_cases hk : Value.kind v1 = Value.kind v2
    · rcases hkind with hne | hs
      · exact absurd hk hne
      · exact Or.inr (hk ▸ hs)
    · exact Or.inl (fun x => hk x.symm)
  | nested k a' b' h1 h2 _ ih => exact Conflict.nested k b' a' h2 h1 ih

/-- Claim C19.  For mappings `a`, `b` with unique keys at every depth,
`mergeMaps a b` fails if and only if `mergeMaps b a` fails. -/
theorem mergeMaps_fails_symm (a b : Mapping) (ha : Mapping.Deep a) (hb : Mapping.Deep b) :
    (∃ err, mergeMaps a b = .error err) ↔ (∃ err, mergeMaps b a = .error err) := by
  rw [mergeMaps_error_iff_conflict a ha b, mergeMaps_error_iff_conflict b hb a]
  exact ⟨Conflict.symm, Conflict.symm⟩

/-- Witness of C19: `t: 1` and `t: [2]` conflict in both directions (with the
duplicate message one way, the lists message the other way). -/
theorem mergeMaps_fails_symm_witness :
    (∃ err, mergeMaps [(Scalar.str "t", Value.seq [.scalar (.int 2)])]
      [(Scalar.str "t", Value.scalar (.int 1))] = .error err) :=
  (mergeMaps_fails_symm [(.str "t", .scalar (.int 1))] [(.str "t", .seq [.scalar (.int 2)])]
    (Mapping.deep_of_check _ (by decide) (by decide))
    (Mapping.deep_of_check _ (by decide) (by decide))).1
    ⟨errDuplicate (.str "t"), rfl⟩

/-! ## Structural equality -/

theorem Value.Equiv.kind_eq {v v' : Value} (h : Value.Equiv v v') :
    Value.kind v = Value.kind v' := by
  cases h <;> rfl

theorem Value.kind_sequence {v : Value} (h : Value.kind v = .sequence) :
    ∃ xs, v = .seq xs := by
  cases v with
  | seq xs => exact ⟨xs, rfl⟩
  | scalar s => cases h
  | map m => cases h

theorem Value.kind_mapping {v : Value} (h : Value.kind v = .mapping) :
    ∃ m, v = .map m := by
  cases v with
  | map m => exact ⟨m, rfl⟩
  | scalar s => cases h
  | seq xs => cases h

theorem Mapping.Equiv.lookup_none_iff {m m' : Mapping} (h : Mapping.Equiv m m')
    (k : Scalar) : Mapping.lookup m k = none ↔ Mapping.lookup m' k = none := by
  unfold Mapping.Equiv at h
  cases h with
  | refl => exact Iff.rfl
  | map _ _ hnone _ => exact hnone k

theorem Mapping.Equiv.lookup_equiv {m m' : Mapping} (h : Mapping.Equiv m m')
    (k : Scalar) (v v' : Value) (hv : Mapping.lookup m k = some v)
    (hv' : Mapping.lookup m' k = some v') : Value.Equiv v v' := by
  unfold Mapping.Equiv at h
  cases h with
  | refl =>
    rw [hv] at hv'
    injection hv' with hv'
    subst hv'
    exact Value.Equiv.refl v
  | map _ _ _ hsome => exact hsome k v v' hv hv'

theorem OptEquiv.refl (o : Option Value) : OptEquiv o o := by
  cases o with
  | none => exact True.intro
  | some v => exact Value.Equiv.refl v

theorem Mapping.Equiv.optEquiv {m m' : Mapping} (h : Mapping.Equiv m m') (k : Scalar) :
    OptEquiv (Mapping.lookup m k) (Mapping.lookup m' k) := by
  cases hv : Mapping.lookup m k with
  | none =>
    rw [(h.lookup_none_iff k).1 hv]
    exact True.intro
  | some v =>
    cases hv' : Mapping.lookup m' k with
    | none =>
      rw [(h.lookup_none_iff k).2 hv'] at hv
      cases hv
    | some v' => exact h.lookup_equiv k v v' hv hv'

theorem Mapping.Equiv.of_optEquiv {m m' : Mapping}
    (h : ∀ k, OptEquiv (Mapping.lookup m k) (Mapping.lookup m' k)) : Mapping.Equiv m m' := by
  refine Value.Equiv.map m m' ?_ ?_
  · intro k
    have hk := h k
    cases hv : Mapping.lookup m k <;> cases hv' : Mapping.lookup m' k <;>
      simp [hv, hv', OptEquiv] at hk ⊢
  · intro k v v' hv hv'
    have hk := h k
    rw [hv, hv'] at hk
    exact hk

theorem Mapping.Equiv.mem_keys_iff {m m' : Mapping} (h : Mapping.Equiv m m') (k : Scalar) :
    k ∈ Mapping.keys m ↔ k ∈ Mapping.keys m' := by
  rw [← not_iff_not, ← Mapping.lookup_eq_none_iff, ← Mapping.lookup_eq_none_iff]
  exact h.lookup_none_iff k

/-- Sequences that are equal element by element stay so when appended. -/
theorem Value.Equiv.seq_append (xs : List Value) :
    ∀ (xs' ys ys' : List Value), Value.Equiv (.seq xs) (.seq xs') →
      Value.Equiv (.seq ys) (.seq ys') →
      Value.Equiv (.seq (xs ++ ys)) (.seq (xs' ++ ys')) := by
  induction xs with
  | nil =>
    intro xs' ys ys' h1 h2
    cases h1 with
    | refl => exact h2
  | cons x t ih =>
    intro xs' ys ys' h1 h2
    cases h1 with
    | refl =>
      exact Value.Equiv.seqCons x x _ _ (Value.Equiv.refl x)
        (ih t ys ys' (Value.Equiv.refl _) h2)
    | seqCons _ y _ t' hx ht =>
      exact Value.Equiv.seqCons x y _ _ hx (ih t' ys ys' ht h2)

/-- Two association lists with unique keys and the same entries are
structurally equal mappings. -/
theorem Mapping.Equiv.of_perm {m m' : Mapping} (hp : List.Perm m m')
    (hn : Mapping.NodupKeys m) : Mapping.Equiv m m' := by
  have hl : ∀ k, Mapping.lookup m k = Mapping.lookup m' k := by
    intro k
    induction hp with
    | nil => rfl
    | cons e _ ih =>
      obtain ⟨k0, v0⟩ := e
      have hn' := hn
      simp only [Mapping.NodupKeys, Mapping.keys_cons, List.nodup_cons] at hn'
      simp only [Mapping.lookup, ih hn'.2]
    | swap e1 e2 l =>
      obtain ⟨k1, v1⟩ := e1
      obtain ⟨k2, v2⟩ := e2
      have hne : k2 ≠ k1 := by
        have := hn
        simp only [Mapping.NodupKeys, Mapping.keys_cons, List.nodup_cons, List.mem_cons,
          not_or] at this
        exact this.1.1
      simp only [Mapping.lookup]
      by_cases h1 : k1 = k
      · have h2 : ¬ k2 = k := fun x => hne (x.trans h1.symm)
        simp [h1, h2]
      · simp [h1]
    | trans hp1 _ ih1 ih2 =>
      rw [ih1 hn, ih2 ((hp1.map Prod.fst).nodup_iff.1 hn)]
  apply Mapping.Equiv.of_optEquiv
  intro k
  rw [hl k]
  exact OptEquiv.refl _

/-! ## A merge, key by key -/

theorem combine_none_left (k : Scalar) (o2 : Option Value) : combine k none o2 = .ok o2 := by
  cases o2 <;> rfl

/-- What a successful merge leaves under each key. -/
theorem combine_of_mergeMaps_ok (m1 m2 r : Mapping) (hn : Mapping.NodupKeys m1)
    (h : mergeMaps m1 m2 = .ok r) (k : Scalar) :
    combine k (Mapping.lookup m1 k) (Mapping.lookup m2 k) = .ok (Mapping.lookup r k) := by
  cases hv1 : Mapping.lookup m1 k with
  | none =>
    have hk : k ∉ Mapping.keys m1 := (Mapping.lookup_eq_none_iff m1 k).1 hv1
    rw [combine_none_left, mergeMaps_lookup_of_not_mem m1 m2 r k h hk]
  | some v1 =>
    obtain ⟨v, hv, hcase⟩ := mergeMaps_lookup_of_mem m1 m2 r k v1 hn h hv1
    rcases hcase with ⟨hnone, rfl⟩ | ⟨v2, hv2, hm⟩
    · rw [hnone, hv]
      rfl
    · rw [hv2, hv, combine, hm]

/-- A merge fails exactly when it fails on some key. -/
theorem mergeMaps_error_iff_combine (m1 m2 : Mapping) (hn : Mapping.NodupKeys m1) :
    (∃ err, mergeMaps m1 m2 = .error err) ↔
      ∃ k err, combine k (Mapping.lookup m1 k) (Mapping.lookup m2 k) = .error err := by
  constructor
  · rintro ⟨err, herr⟩
    obtain ⟨k, v1, v2, h1, h2, hv⟩ := mergeMaps_conflict_of_error m1 m2 err hn herr
    refine ⟨k, err, ?_⟩
    rw [h1, h2, combine, hv]
  · rintro ⟨k, err, hc⟩
    cases hv1 : Mapping.lookup m1 k with
    | none =>
      rw [hv1, combine_none_left] at hc
      cases hc
    | some v1 =>
      cases hv2 : Mapping.lookup m2 k with
      | none =>
        rw [hv1, hv2] at hc
        cases hc
      | some v2 =>
        rw [hv1, hv2, combine] at hc
        cases hm : mergeValue v1 k v2 with
        | ok v => rw [hm] at hc; cases hc
        | error err' =>
          exact mergeMaps_error_of_conflict m1 m2 k v1 v2 hv1 hv2 ⟨err', hm⟩

/-- Two outcomes that agree key by key agree as mappings. -/
theorem sameOutcome_of_keys (x y : Except String Mapping)
    (fx fy : Scalar → Except String (Option Value))
    (hxe : (∃ err, x = .error err) ↔ ∃ k err, fx k = .error err)
    (hxo : ∀ r, x = .ok r → ∀ k, fx k = .ok (Mapping.lookup r k))
    (hye : (∃ err, y = .error err) ↔ ∃ k err, fy k = .error err)
    (hyo : ∀ r, y = .ok r → ∀ k, fy k = .ok (Mapping.lookup r k))
    (hk : ∀ k, SameOutcome OptEquiv (fx k) (fy k)) :
    SameOutcome Mapping.Equiv x y := by
  constructor
  · rw [hxe, hye]
    constructor
    · rintro ⟨k, err, h⟩
      obtain ⟨err', h'⟩ := (hk k).1.1 ⟨err, h⟩
      exact ⟨k, err', h'⟩
    · rintro ⟨k, err, h⟩
      obtain ⟨err', h'⟩ := (hk k).1.2 ⟨err, h⟩
      exact ⟨k, err', h'⟩
  · intro r r' hr hr'
    apply Mapping.Equiv.of_optEquiv
    intro k
    exact (hk k).2 _ _ (hxo r hr k) (hyo r' hr' k)

/-! ## The order of the keys does not matter -/

theorem sameOutcome_of_errors {α : Type} (R : α → α → Prop) (x y : Except String α)
    (hx : ∃ err, x = .error err) (hy : ∃ err, y = .error err) : SameOutcome R x y := by
  refine ⟨⟨fun _ => hy, fun _ => hx⟩, ?_⟩
  intro r r' hr
  obtain ⟨err, herr⟩ := hx
  rw [herr] at hr
  cases hr

theorem sameOutcome_of_oks {α : Type} (R : α → α → Prop) (r r' : α) (h : R r r') :
    SameOutcome R (.ok r) (.ok r') := by
  refine ⟨⟨?_, ?_⟩, ?_⟩
  · rintro ⟨err, herr⟩
    cases herr
  · rintro ⟨err, herr⟩
    cases herr
  · intro s s' hs hs'
    injection hs with hs
    injection hs' with hs'
    subst hs
    subst hs'
    exact h

/-- The type dispatch succeeds only on two values of the same dynamic type,
sequence or mapping, and gives a value of that type. -/
theorem mergeValue_kind (k : Scalar) (v1 v2 v : Value) (h : mergeValue v1 k v2 = .ok v) :
    Value.kind v1 = Value.kind v2 ∧ Value.kind v = Value.kind v1 ∧
      Value.kind v1 ≠ .scalar := by
  cases v1 with
  | scalar s => rw [mergeValue_scalar] at h; cases h
  | seq xs =>
    cases v2 with
    | seq ys =>
      rw [mergeValue_seq_seq] at h
      injection h with h
      subst h
      exact ⟨rfl, rfl, by simp [Value.kind]⟩
    | scalar s => cases h
    | map b => cases h
  | map a =>
    cases v2 with
    | map b =>
      rw [mergeValue_map_map] at h
      cases hab : mergeMaps a b with
      | error err => rw [hab] at h; cases h
      | ok ab =>
        rw [hab] at h
        injection h with h
        subst h
        exact ⟨rfl, rfl, by simp [Value.kind]⟩
    | scalar s => cases h
    | seq ys => cases h

/-- The outcome of the merge of two mappings, as the outcome of the type
dispatch on them. -/
theorem sameOutcome_map_map (k : Scalar) (a b a' b' : Mapping) (x y : Except String Mapping)
    (hx : mergeValue (.map a) k (.map b) =
      match x with
      | .error err => .error err
      | .ok r => .ok (.map r))
    (hy : mergeValue (.map a') k (.map b') =
      match y with
      | .error err => .error err
      | .ok r => .ok (.map r))
    (h : SameOutcome Mapping.Equiv x y) :
    SameOutcome Value.Equiv (mergeValue (.map a) k (.map b))
      (mergeValue (.map a') k (.map b')) := by
  rw [hx, hy]
  cases x with
  | error ex =>
    obtain ⟨ey, hey⟩ := h.1.1 ⟨ex, rfl⟩
    rw [hey]
    exact sameOutcome_of_errors _ _ _ ⟨ex, rfl⟩ ⟨ey, rfl⟩
  | ok r =>
    cases y with
    | error ey =>
      obtain ⟨ex, hex⟩ := h.1.2 ⟨ey, rfl⟩
      cases hex
    | ok r' => exact sameOutcome_of_oks _ _ _ (h.2 r r' rfl rfl)

theorem mergeValue_congr (k : Scalar) (v1 v1' v2 v2' : Value)
    (h1 : Value.Equiv v1 v1') (h2 : Value.Equiv v2 v2')
    (hmap : ∀ a a' b b', v1 = .map a → v1' = .map a' → v2 = .map b → v2' = .map b' →
      SameOutcome Mapping.Equiv (mergeMaps a b) (mergeMaps a' b')) :
    SameOutcome Value.Equiv (mergeValue v1 k v2) (mergeValue v1' k v2') := by
  have hk1 := h1.kind_eq
  have hk2 := h2.kind_eq
  by_cases hbad : Value.kind v1 ≠ Value.kind v2 ∨ Value.kind v1 = .scalar
  · apply sameOutcome_of_errors
    · exact (mergeValue_error_cases k v1 v2).2 (Or.inl hbad)
    · refine (mergeValue_error_cases k v1' v2').2 (Or.inl ?_)
      rw [← hk1, ← hk2]
      exact hbad
  · simp only [not_or, not_not] at hbad
    obtain ⟨hsame, hns⟩ := hbad
    cases hkind : Value.kind v1 with
    | scalar => exact absurd hkind hns
    | sequence =>
      obtain ⟨xs, rfl⟩ := Value.kind_sequence hkind
      obtain ⟨ys, rfl⟩ := Value.kind_sequence (hsame ▸ hkind)
      obtain ⟨xs', rfl⟩ := Value.kind_sequence (hk1 ▸ hkind)
      obtain ⟨ys', rfl⟩ := Value.kind_sequence (hk2 ▸ hsame ▸ hkind)
      rw [mergeValue_seq_seq, mergeValue_seq_seq]
      exact sameOutcome_of_oks _ _ _ (Value.Equiv.seq_append ys ys' xs xs' h2 h1)
    | mapping =>
      obtain ⟨a, rfl⟩ := Value.kind_mapping hkind
      obtain ⟨b, rfl⟩ := Value.kind_mapping (hsame ▸ hkind)
      obtain ⟨a', rfl⟩ := Value.kind_mapping (hk1 ▸ hkind)
      obtain ⟨b', rfl⟩ := Value.kind_mapping (hk2 ▸ hsame ▸ hkind)
      exact sameOutcome_map_map k a b a' b' _ _ (mergeValue_map_map k a b)
        (mergeValue_map_map k a' b') (hmap a a' b b' rfl rfl rfl rfl)

theorem sameOutcome_some : ∀ (x y : Except String Value),
    SameOutcome Value.Equiv x y →
    SameOutcome OptEquiv
      (match x with
        | .error err => .error err
        | .ok v => .ok (some v))
      (match y with
        | .error err => .error err
        | .ok v => .ok (some v)) := by
  intro x y h
  cases x with
  | error ex =>
    obtain ⟨ey, hey⟩ := h.1.1 ⟨ex, rfl⟩
    subst hey
    exact sameOutcome_of_errors _ _ _ ⟨ex, rfl⟩ ⟨ey, rfl⟩
  | ok r =>
    cases y with
    | error ey =>
      obtain ⟨ex, hex⟩ := h.1.2 ⟨ey, rfl⟩
      cases hex
    | ok r' => exact sameOutcome_of_oks _ _ _ (h.2 r r' rfl rfl)

theorem combine_congr (k : Scalar) (o1 o1' o2 o2' : Option Value)
    (h1 : OptEquiv o1 o1') (h2 : OptEquiv o2 o2')
    (hmap : ∀ a a' b b', o1 = some (.map a) → o1' = some (.map a') →
      o2 = some (.map b) → o2' = some (.map b') →
      SameOutcome Mapping.Equiv (mergeMaps a b) (mergeMaps a' b')) :
    SameOutcome OptEquiv (combine k o1 o2) (combine k o1' o2') := by
  cases o1 with
  | none =>
    cases o1' with
    | some v1' => exact absurd h1 (by simp [OptEquiv])
    | none =>
      rw [combine_none_left, combine_none_left]
      exact sameOutcome_of_oks _ _ _ h2
  | some v1 =>
    cases o1' with
    | none => exact absurd h1 (by simp [OptEquiv])
    | some v1' =>
      cases o2 with
      | none =>
        cases o2' with
        | some v2' => exact absurd h2 (by simp [OptEquiv])
        | none => exact sameOutcome_of_oks _ _ _ h1
      | some v2 =>
        cases o2' with
        | none => exact absurd h2 (by simp [OptEquiv])
        | some v2' =>
          exact sameOutcome_some _ _ (mergeValue_congr k v1 v1' v2 v2' h1 h2
            (fun a a' b b' ha ha' hb hb' =>
              hmap a a' b b' (by rw [ha]) (by rw [ha']) (by rw [hb]) (by rw [hb'])))

/-- Structurally equal sources (unique keys at every depth) and structurally
equal destinations give the same outcome. -/
theorem mergeMaps_congr (m1 : Mapping) (hd : Mapping.Deep m1) :
    ∀ (m1' m2 m2' : Mapping), Mapping.Deep m1' → Mapping.Equiv m1 m1' →
      Mapping.Equiv m2 m2' →
      SameOutcome Mapping.Equiv (mergeMaps m1 m2) (mergeMaps m1' m2') := by
  induction hd with
  | intro m hn _ ih =>
    intro m1' m2 m2' hd' he1 he2
    apply sameOutcome_of_keys _ _
      (fun k => combine k (Mapping.lookup m k) (Mapping.lookup m2 k))
      (fun k => combine k (Mapping.lookup m1' k) (Mapping.lookup m2' k))
      (mergeMaps_error_iff_combine m m2 hn)
      (fun r hr k => combine_of_mergeMaps_ok m m2 r hn hr k)
      (mergeMaps_error_iff_combine m1' m2' hd'.nodupKeys)
      (fun r hr k => combine_of_mergeMaps_ok m1' m2' r hd'.nodupKeys hr k)
    intro k
    apply combine_congr k _ _ _ _ (he1.optEquiv k) (he2.optEquiv k)
    intro a a' b b' ha ha' hb hb'
    exact ih k a ha a' b b' (hd'.of_lookup k a' ha')
      (he1.lookup_equiv k _ _ ha ha') (he2.lookup_equiv k _ _ hb hb')

/-- Claim C16.  For two association lists `m1`, `m1'` that hold the same Go
map (structurally equal, keys unique at every depth), that is the same source
with its keys, and those of its nested mappings, visited in two orders:
`mergeMaps m1 m2` and `mergeMaps m1' m2` both fail, or both succeed with
structurally equal results. -/
theorem mergeMaps_order_independent (m1 m1' m2 : Mapping)
    (hd : Mapping.Deep m1) (hd' : Mapping.Deep m1') (he : Mapping.Equiv m1 m1') :
    ((∃ err, mergeMaps m1 m2 = .error err) ↔ (∃ err, mergeMaps m1' m2 = .error err)) ∧
    (∀ r r', mergeMaps m1 m2 = .ok r → mergeMaps m1' m2 = .ok r' → Mapping.Equiv r r') :=
  mergeMaps_congr m1 hd m1' m2 m2 hd' he (Value.Equiv.refl _)

/-- Witness of C16: the source `a: 1, b: 2, s: [1]` visited in two orders and
merged into `s: [0]`: the results, `s: [0, 1], a: 1, b: 2` and
`s: [0, 1], b: 2, a: 1`, are structurally equal; and both orders fail on the
destination `s: 0`. -/
theorem mergeMaps_order_independent_witness :
    Mapping.Equiv
      [(Scalar.str "s", Value.seq [.scalar (.int 0), .scalar (.int 1)]),
        (Scalar.str "a", Value.scalar (.int 1)), (Scalar.str "b", Value.scalar (.int 2))]
      [(Scalar.str "s", Value.seq [.scalar (.int 0), .scalar (.int 1)]),
        (Scalar.str "b", Value.scalar (.int 2)), (Scalar.str "a", Value.scalar (.int 1))] ∧
    ((∃ err, mergeMaps [(Scalar.str "a", Value.scalar (.int 1)),
          (Scalar.str "b", Value.scalar (.int 2)), (Scalar.str "s", Value.seq [.scalar (.int 1)])]
        [(Scalar.str "s", Value.scalar (.int 0))] = .error err) ↔
      (∃ err, mergeMaps [(Scalar.str "b", Value.scalar (.int 2)),
          (Scalar.str "a", Value.scalar (.int 1)), (Scalar.str "s", Value.seq [.scalar (.int 1)])]
        [(Scalar.str "s", Value.scalar (.int 0))] = .error err)) :=
  ⟨(mergeMaps_order_independent
      [(.str "a", .scalar (.int 1)), (.str "b", .scalar (.int 2)),
        (.str "s", .seq [.scalar (.int 1)])]
      [(.str "b", .scalar (.int 2)), (.str "a", .scalar (.int 1)),
        (.str "s", .seq [.scalar (.int 1)])]
      [(.str "s", .seq [.scalar (.int 0)])]
      (Mapping.deep_of_check _ (by decide) (by decide))
      (Mapping.deep_of_check _ (by decide) (by decide))
      (Mapping.Equiv.of_perm (List.Perm.swap _ _ _) (by decide))).2 _ _ rfl rfl,
    (mergeMaps_order_independent
      [(.str "a", .scalar (.int 1)), (.str "b", .scalar (.int 2)),
        (.str "s", .seq [.scalar (.int 1)])]
      [(.str "b", .scalar (.int 2)), (.str "a", .scalar (.int 1)),
        (.str "s", .seq [.scalar (.int 1)])]
      [(.str "s", .scalar (.int 0))]
      (Mapping.deep_of_check _ (by decide) (by decide))
      (Mapping.deep_of_check _ (by decide) (by decide))
      (Mapping.Equiv.of_perm (List.Perm.swap _ _ _) (by decide))).1⟩

/-! ## Grouping does not matter -/

theorem sameOutcome_refl {α : Type} (R : α → α → Prop) (hR : ∀ r, R r r)
    (x : Except String α) : SameOutcome R x x := by
  refine ⟨Iff.rfl, ?_⟩
  intro r r' hr hr'
  rw [hr] at hr'
  injection hr' with hr'
  subst hr'
  exact hR r

theorem sameOutcome_liftMap (x y : Except String Mapping)
    (h : SameOutcome Mapping.Equiv x y) : SameOutcome Value.Equiv (liftMap x) (liftMap y) := by
  cases x with
  | error ex =>
    obtain ⟨ey, hey⟩ := h.1.1 ⟨ex, rfl⟩
    subst hey
    exact sameOutcome_of_errors _ _ _ ⟨ex, rfl⟩ ⟨ey, rfl⟩
  | ok r =>
    cases y with
    | error ey =>
      obtain ⟨ex, hex⟩ := h.1.2 ⟨ey, rfl⟩
      cases hex
    | ok r' => exact sameOutcome_of_oks _ _ _ (h.2 r r' rfl rfl)

theorem sameOutcome_liftSome (x y : Except String Value)
    (h : SameOutcome Value.Equiv x y) : SameOutcome OptEquiv (liftSome x) (liftSome y) := by
  cases x with
  | error ex =>
    obtain ⟨ey, hey⟩ := h.1.1 ⟨ex, rfl⟩
    subst hey
    exact sameOutcome_of_errors _ _ _ ⟨ex, rfl⟩ ⟨ey, rfl⟩
  | ok r =>
    cases y with
    | error ey =>
      obtain ⟨ex, hex⟩ := h.1.2 ⟨ey, rfl⟩
      cases hex
    | ok r' => exact sameOutcome_of_oks _ _ _ (h.2 r r' rfl rfl)

theorem valueLeft_error_of_not_good (k : Scalar) (va vb vc : Value)
    (h : ¬ (Value.kind va = Value.kind vb ∧ Value.kind vb = Value.kind vc ∧
      Value.kind va ≠ .scalar)) :
    ∃ err, valueLeft k va vb vc = .error err := by
  unfold valueLeft
  cases hab : mergeValue va k vb with
  | error err => exact ⟨err, rfl⟩
  | ok vab =>
    obtain ⟨h1, h2, h3⟩ := mergeValue_kind k va vb vab hab
    apply mergeValue_error_of_kind_ne
    intro hk
    exact h ⟨h1, by rw [← h1, ← h2, hk], h3⟩

theorem valueRight_error_of_not_good (k : Scalar) (va vb vc : Value)
    (h : ¬ (Value.kind va = Value.kind vb ∧ Value.kind vb = Value.kind vc ∧
      Value.kind va ≠ .scalar)) :
    ∃ err, valueRight k va vb vc = .error err := by
  unfold valueRight
  cases hbc : mergeValue vb k vc with
  | error err => exact ⟨err, rfl⟩
  | ok vbc =>
    obtain ⟨h1, h2, h3⟩ := mergeValue_kind k vb vc vbc hbc
    apply mergeValue_error_of_kind_ne
    intro hk
    exact h ⟨by rw [hk, h2], h1, by rw [hk, h2]; exact h3⟩

theorem valueLeft_maps (k : Scalar) (a b c : Mapping) :
    valueLeft k (.map a) (.map b) (.map c) = liftMap (mergeLeft a b c) := by
  unfold valueLeft mergeLeft
  rw [mergeValue_map_map]
  cases mergeMaps a b with
  | error err => rfl
  | ok ab => exact mergeValue_map_map k ab c

theorem valueRight_maps (k : Scalar) (a b c : Mapping) :
    valueRight k (.map a) (.map b) (.map c) = liftMap (mergeRight a b c) := by
  unfold valueRight mergeRight
  rw [mergeValue_map_map]
  cases mergeMaps b c with
  | error err => rfl
  | ok bc => exact mergeValue_map_map k a bc

/-- The two groupings agree on a key that all three mappings hold. -/
theorem mergeValue_assoc (k : Scalar) (va vb vc : Value)
    (hmap : ∀ a b c, va = .map a → vb = .map b → vc = .map c →
      SameOutcome Mapping.Equiv (mergeLeft a b c) (mergeRight a b c)) :
    SameOutcome Value.Equiv (valueLeft k va vb vc) (valueRight k va vb vc) := by
  by_cases hgood : Value.kind va = Value.kind vb ∧ Value.kind vb = Value.kind vc ∧
      Value.kind va ≠ .scalar
  · obtain ⟨hab, hbc, hns⟩ := hgood
    cases hkind : Value.kind va with
    | scalar => exact absurd hkind hns
    | sequence =>
      obtain ⟨xs, rfl⟩ := Value.kind_sequence hkind
      obtain ⟨ys, rfl⟩ := Value.kind_sequence (hab ▸ hkind)
      obtain ⟨zs, rfl⟩ := Value.kind_sequence (hbc ▸ hab ▸ hkind)
      have hl : valueLeft k (.seq xs) (.seq ys) (.seq zs) = .ok (.seq (zs ++ (ys ++ xs))) := rfl
      have hr : valueRight k (.seq xs) (.seq ys) (.seq zs) = .ok (.seq ((zs ++ ys) ++ xs)) :=
        rfl
      rw [hl, hr, List.append_assoc]
      exact sameOutcome_of_oks _ _ _ (Value.Equiv.refl _)
    | mapping =>
      obtain ⟨a, rfl⟩ := Value.kind_mapping hkind
      obtain ⟨b, rfl⟩ := Value.kind_mapping (hab ▸ hkind)
      obtain ⟨c, rfl⟩ := Value.kind_mapping (hbc ▸ hab ▸ hkind)
      rw [valueLeft_maps, valueRight_maps]
      exact sameOutcome_liftMap _ _ (hmap a b c rfl rfl rfl)
  · exact sameOutcome_of_errors _ _ _ (valueLeft_error_of_not_good k va vb vc hgood)
      (valueRight_error_of_not_good k va vb vc hgood)

theorem combineLeft_somes (k : Scalar) (va vb vc : Value) :
    combineLeft k (some va) (some vb) (some vc) = liftSome (valueLeft k va vb vc) := by
  unfold combineLeft valueLeft
  rw [combine]
  cases mergeValue va k vb with
  | error err => rfl
  | ok vab => rfl

theorem combineRight_somes (k : Scalar) (va vb vc : Value) :
    combineRight k (some va) (some vb) (some vc) = liftSome (valueRight k va vb vc) := by
  unfold combineRight valueRight
  rw [combine]
  cases mergeValue vb k vc with
  | error err => rfl
  | ok vbc => rfl

theorem combineLeft_eq_of_none (k : Scalar) (oa ob oc : Option Value)
    (h : oa = none ∨ ob = none ∨ oc = none) :
    combineLeft k oa ob oc = combineRight k oa ob oc := by
  unfold combineLeft combineRight
  cases oa with
  | none =>
    rw [combine_none_left]
    dsimp only
    cases combine k ob oc with
    | error err => rfl
    | ok obc => exact (combine_none_left k obc).symm
  | some va =>
    cases ob with
    | none => rfl
    | some vb =>
      cases oc with
      | some vc => simp at h
      | none =>
        show (match combine k (some va) (some vb) with
          | .error err => .error err
          | .ok oab => combine k oab none) = combine k (some va) (some vb)
        rw [combine]
        cases mergeValue va k vb with
        | error err => rfl
        | ok vab => rfl

/-- The two groupings agree on every key. -/
theorem combine_assoc (k : Scalar) (oa ob oc : Option Value)
    (hmap : ∀ a b c, oa = some (.map a) → ob = some (.map b) → oc = some (.map c) →
      SameOutcome Mapping.Equiv (mergeLeft a b c) (mergeRight a b c)) :
    SameOutcome OptEquiv (combineLeft k oa ob oc) (combineRight k oa ob oc) := by
  by_cases hnone : oa = none ∨ ob = none ∨ oc = none
  · rw [combineLeft_eq_of_none k oa ob oc hnone]
    exact sameOutcome_refl _ OptEquiv.refl _
  · simp only [not_or] at hnone
    obtain ⟨va, rfl⟩ := Option.ne_none_iff_exists'.1 hnone.1
    obtain ⟨vb, rfl⟩ := Option.ne_none_iff_exists'.1 hnone.2.1
    obtain ⟨vc, rfl⟩ := Option.ne_none_iff_exists'.1 hnone.2.2
    rw [combineLeft_somes, combineRight_somes]
    exact sameOutcome_liftSome _ _ (mergeValue_assoc k va vb vc
      (fun a b c ha hb hc => hmap a b c (by rw [ha]) (by rw [hb]) (by rw [hc])))

theorem mergeLeft_ok (a b c r : Mapping) (hna : Mapping.NodupKeys a)
    (hnb : Mapping.NodupKeys b) (h : mergeLeft a b c = .ok r) (k : Scalar) :
    combineLeft k (Mapping.lookup a k) (Mapping.lookup b k) (Mapping.lookup c k)
      = .ok (Mapping.lookup r k) := by
  unfold mergeLeft at h
  cases hab : mergeMaps a b with
  | error err => rw [hab] at h; cases h
  | ok ab =>
    rw [hab] at h
    have hnab := mergeMaps_nodupKeys a b ab hab hnb
    unfold combineLeft
    rw [combine_of_mergeMaps_ok a b ab hna hab k]
    exact combine_of_mergeMaps_ok ab c r hnab h k

theorem mergeLeft_error_iff (a b c : Mapping) (hna : Mapping.NodupKeys a)
    (hnb : Mapping.NodupKeys b) :
    (∃ err, mergeLeft a b c = .error err) ↔
      ∃ k err, combineLeft k (Mapping.lookup a k) (Mapping.lookup b k) (Mapping.lookup c k)
        = .error err := by
  unfold mergeLeft
  cases hab : mergeMaps a b with
  | error err =>
    constructor
    · intro _
      obtain ⟨k, err', hk⟩ := (mergeMaps_error_iff_combine a b hna).1 ⟨err, hab⟩
      refine ⟨k, err', ?_⟩
      unfold combineLeft
      rw [hk]
    · intro _
      exact ⟨err, rfl⟩
  | ok ab =>
    have hnab := mergeMaps_nodupKeys a b ab hab hnb
    have hk : ∀ k, combineLeft k (Mapping.lookup a k) (Mapping.lookup b k) (Mapping.lookup c k)
        = combine k (Mapping.lookup ab k) (Mapping.lookup c k) := by
      intro k
      unfold combineLeft
      rw [combine_of_mergeMaps_ok a b ab hna hab k]
    simp only [hk]
    exact mergeMaps_error_iff_combine ab c hnab

theorem mergeRight_ok (a b c r : Mapping) (hna : Mapping.NodupKeys a)
    (hnb : Mapping.NodupKeys b) (h : mergeRight a b c = .ok r) (k : Scalar) :
    combineRight k (Mapping.lookup a k) (Mapping.lookup b k) (Mapping.lookup c k)
      = .ok (Mapping.lookup r k) := by
  unfold mergeRight at h
  cases hbc : mergeMaps b c with
  | error err => rw [hbc] at h; cases h
  | ok bc =>
    rw [hbc] at h
    unfold combineRight
    rw [combine_of_mergeMaps_ok b c bc hnb hbc k]
    exact combine_of_mergeMaps_ok a bc r hna h k

theorem mergeRight_error_iff (a b c : Mapping) (hna : Mapping.NodupKeys a)
    (hnb : Mapping.NodupKeys b) :
    (∃ err, mergeRight a b c = .error err) ↔
      ∃ k err, combineRight k (Mapping.lookup a k) (Mapping.lookup b k) (Mapping.lookup c k)
        = .error err := by
  unfold mergeRight
  cases hbc : mergeMaps b c with
  | error err =>
    constructor
    · intro _
      obtain ⟨k, err', hk⟩ := (mergeMaps_error_iff_combine b c hnb).1 ⟨err, hbc⟩
      refine ⟨k, err', ?_⟩
      unfold combineRight
      rw [hk]
    · intro _
      exact ⟨err, rfl⟩
  | ok bc =>
    have hk : ∀ k, combineRight k (Mapping.lookup a k) (Mapping.lookup b k)
        (Mapping.lookup c k) = combine k (Mapping.lookup a k) (Mapping.lookup bc k) := by
      intro k
      unfold combineRight
      rw [combine_of_mergeMaps_ok b c bc hnb hbc k]
    simp only [hk]
    exact mergeMaps_error_iff_combine a bc hna

/-- The two groupings of three mappings give the same outcome. -/
theorem mergeLeft_sameOutcome_mergeRight (a : Mapping) (hd : Mapping.Deep a) :
    ∀ (b c : Mapping), Mapping.Deep b →
      SameOutcome Mapping.Equiv (mergeLeft a b c) (mergeRight a b c) := by
  induction hd with
  | intro m hn _ ih =>
    intro b c hdb
    apply sameOutcome_of_keys _ _
      (fun k => combineLeft k (Mapping.lookup m k) (Mapping.lookup b k) (Mapping.lookup c k))
      (fun k => combineRight k (Mapping.lookup m k) (Mapping.lookup b k) (Mapping.lookup c k))
      (mergeLeft_error_iff m b c hn hdb.nodupKeys)
      (fun r hr k => mergeLeft_ok m b c r hn hdb.nodupKeys hr k)
      (mergeRight_error_iff m b c hn hdb.nodupKeys)
      (fun r hr k => mergeRight_ok m b c r hn hdb.nodupKeys hr k)
    intro k
    apply combine_assoc
    intro a' b' c' ha hb _
    exact ih k a' ha b' c' (hdb.of_lookup k b' hb)

/-- On non-nil maps: for mappings `a`, `b` with unique keys at every depth and
any mapping `c`, `mergeMaps(mergeMaps(a, b), c)` and
`mergeMaps(a, mergeMaps(b, c))` both fail, or both succeed with structurally
equal results. -/
theorem mergeMaps_assoc (a b c : Mapping) (ha : Mapping.Deep a) (hb : Mapping.Deep b) :
    ((∃ err, mergeLeft a b c = .error err) ↔ (∃ err, mergeRight a b c = .error err)) ∧
    (∀ r r', mergeLeft a b c = .ok r → mergeRight a b c = .ok r' → Mapping.Equiv r r') :=
  mergeLeft_sameOutcome_mergeRight a ha b c hb

/-- An instance of `mergeMaps_assoc`: `s: [1], p: {x: 1}`, then `s: [2], p: {y: 2}`, then
`s: [3], q: 0`, grouped both ways, give structurally equal results. -/
theorem mergeMaps_assoc_witness :
    Mapping.Equiv
      [(Scalar.str "s", Value.seq [.scalar (.int 3), .scalar (.int 2), .scalar (.int 1)]),
        (Scalar.str "q", Value.scalar (.int 0)),
        (Scalar.str "p", Value.map [(.str "y", .scalar (.int 2)), (.str "x", .scalar (.int 1))])]
      [(Scalar.str "s", Value.seq [.scalar (.int 3), .scalar (.int 2), .scalar (.int 1)]),
        (Scalar.str "q", Value.scalar (.int 0)),
        (Scalar.str "p", Value.map [(.str "y", .scalar (.int 2)), (.str "x", .scalar (.int 1))])] :=
  (mergeMaps_assoc
    [(.str "s", .seq [.scalar (.int 1)]), (.str "p", .map [(.str "x", .scalar (.int 1))])]
    [(.str "s", .seq [.scalar (.int 2)]), (.str "p", .map [(.str "y", .scalar (.int 2))])]
    [(.str "s", .seq [.scalar (.int 3)]), (.str "q", .scalar (.int 0))]
    (Mapping.deep_of_check _ (by decide) (by decide))
    (Mapping.deep_of_check _ (by decide) (by decide))).2 _ _ rfl rfl

/-! ## A nil destination -/

/-- On a non-nil destination the call is `mergeMaps`. -/
theorem mergeMapsGo_some (m1 m2 : Mapping) :
    mergeMapsGo (some m1) (some m2) =
      match mergeMaps m1 m2 with
      | .error err => .error err
      | .ok merged => .ok (some merged) := rfl

/-- Claim C3, the code at a failing input.  A source with at least one entry
and the nil destination share no key, so no key conflicts at any depth; the
call `mergeMaps(m1, nil)` nevertheless returns no mapping: it panics at
line 160.  The instance is the call of line 67 for the fragments `a: 1`
then `~`. -/
theorem mergeMapsGo_nil_destination_panics :
    (∀ k, Mapping.lookup (GoMap.entries none) k = none) ∧
    (∀ (entry : Scalar × Value) (rest : Mapping),
      mergeMapsGo (some (entry :: rest)) none = Outcome.panic) ∧
    mergeMapsGo (some [(Scalar.str "a", Value.scalar (.int 1))]) none = Outcome.panic :=
  ⟨fun _ => rfl, fun _ _ => rfl, rfl⟩

/-- Claim C6, the code at a failing input.  The mapping `a: 1` and the nil map
have disjoint key sets; merging the nil map into `a: 1` returns `a: 1`, but
merging `a: 1` into the nil map panics at line 160: the two directions do not
both succeed. -/
theorem mergeMapsGo_disjoint_nil :
    (∀ k, k ∈ Mapping.keys [(Scalar.str "a", Value.scalar (.int 1))] →
      k ∉ Mapping.keys (GoMap.entries none)) ∧
    mergeMapsGo none (some [(Scalar.str "a", Value.scalar (.int 1))])
      = Outcome.ok (some [(Scalar.str "a", Value.scalar (.int 1))]) ∧
    mergeMapsGo (some [(Scalar.str "a", Value.scalar (.int 1))]) none = Outcome.panic :=
  ⟨fun _ _ h => by simp [GoMap.entries] at h, rfl, rfl⟩

/-- Claim C7, the code at a failing input.  The nil map is an empty mapping
(it has no entry), and it is what the fragment `~` leaves; merging `a: 1`
into it panics at line 160, so the run on the fragments `a: 1` then `~`
panics, whereas merging `a: 1` into the empty map made by `make` returns
`a: 1`. -/
theorem generateRunGo_nil_fragment_panics :
    GoMap.entries none = [] ∧
    generateRunGo [some [(Scalar.str "a", Value.scalar (.int 1))], none] = Outcome.panic ∧
    mergeMapsGo (some [(Scalar.str "a", Value.scalar (.int 1))]) (some [])
      = Outcome.ok (some [(Scalar.str "a", Value.scalar (.int 1))]) :=
  ⟨rfl, rfl, rfl⟩

/-- Claim C18, the code at two failing inputs.  With `a` the mapping `x: 1`,
`b` the nil map and `c` the empty map, `mergeMaps(mergeMaps(a, b), c)` panics
(its inner call, at line 160) while `mergeMaps(a, mergeMaps(b, c))` returns
`x: 1`.  With `a` the mapping `x: 1`, `b` the mapping `x: 2` and `c` the nil
map, the first grouping returns the duplicate error while the second
panics. -/
theorem mergeMapsGo_grouping_nil :
    (mergeLeftGo (some [(Scalar.str "x", Value.scalar (.int 1))]) none (some [])
        = Outcome.panic ∧
      mergeRightGo (some [(Scalar.str "x", Value.scalar (.int 1))]) none (some [])
        = Outcome.ok (some [(Scalar.str "x", Value.scalar (.int 1))])) ∧
    (mergeLeftGo (some [(Scalar.str "x", Value.scalar (.int 1))])
        (some [(Scalar.str "x", Value.scalar (.int 2))]) none
        = Outcome.error (errDuplicate (.str "x")) ∧
      mergeRightGo (some [(Scalar.str "x", Value.scalar (.int 1))])
        (some [(Scalar.str "x", Value.scalar (.int 2))]) none
        = Outcome.panic) :=
  ⟨⟨rfl, rfl⟩, rfl, rfl⟩

end Oas3Agg
